import Mathlib

/-!
Self-hosted URL shortener: code registry and persistence.

A shallow embedding of `model/url.go`, `model/errors.go`, `database/sqlite.go`,
`service/url_service.go` and `redirectHandler` of `handler/http_handler.go`.

* Go strings are Lean `String`s (valid UTF-8 text).
* A `time.Time` is an instant together with the offset of its zone, because
  the driver stores it as the text `2006-01-02 15:04:05.999999999-07:00` and
  `ORDER BY created_at` compares those texts.
* An `INTEGER` column is an `Int`; a value outside the range of `int64` stands
  for the `REAL` that SQLite makes of it, which `Scan` cannot read into the
  `int64` field of the record.
* The table `urls` is the list of its rows in rowid order, together with the
  AUTOINCREMENT counter kept by SQLite in `sqlite_sequence`.
* Everything the code reads from outside (the clock, `crypto/rand`, failures
  raised by the SQLite driver) is an explicit argument.
* The unbounded `for` loop of `ShortenURL` runs on fuel; `none` means that the
  loop is still running when the fuel is used up.
-/

namespace UrlShortener

/-! ## model/errors.go and the error values built by the code -/

/-- Go `error` values that the code creates, wraps or receives. -/
inductive GoError where
  /-- an error raised outside the repository (SQLite driver, `crypto/rand`) -/
  | external (msg : String)
  /-- the sentinel `sql.ErrNoRows` -/
  | ErrNoRows
  /-- the value of `fmt.Errorf(msg)` without a wrapping verb -/
  | errorf (msg : String)
  /-- the value of `fmt.Errorf(msg ++ "%w", err)` -/
  | wrap (msg : String) (err : GoError)
  /-- the struct `model.ErrCustomCodeAlreadyExists` -/
  | ErrCustomCodeAlreadyExists (Code : String)
  /-- the struct `model.ErrURLNotFound` -/
  | ErrURLNotFound (Code : String)
  /-- the struct `model.ErrInvalidURL` -/
  | ErrInvalidURL (URL : String)
  /-- the struct `model.ErrDatabaseError` -/
  | ErrDatabaseError (Err : GoError)
  deriving DecidableEq, Repr

/-! ## model/url.go -/

/-- A `time.Time` as far as the store keeps it: the instant in nanoseconds
since the Unix epoch, and the offset of its zone in minutes east of UTC. -/
structure Time where
  instant : Int
  offset : Int
  deriving DecidableEq, Repr

/-- The time with the given instant in the zone UTC. -/
def Time.utc (instant : Int) : Time := { instant := instant, offset := 0 }

/-- The local wall clock in nanoseconds: what the date and time fields of the
text `2006-01-02 15:04:05.999999999-07:00` show. -/
def Time.wall (t : Time) : Int := t.instant + t.offset * 60000000000

/-- The sign that the text shows in front of the offset: 0 for `+`, 1 for `-`
(the byte `+` is smaller than the byte `-`). -/
def Time.zoneSign (t : Time) : Nat := if t.offset < 0 then 1 else 0

/-- Whether the local year has four digits (0000 to 9999), so that the date
and time fields of the stored text stand at fixed positions. -/
def Time.fourDigitYear (t : Time) : Prop :=
  -62167219200000000000 ≤ t.wall ∧ t.wall < 253402300800000000000

/-- The byte order of the texts that the driver stores for two times, for
local years 0000 to 9999: first the wall clock, then the sign of the offset,
then its size. This is the order that `ORDER BY created_at` sees. -/
def Time.textLe (a b : Time) : Bool :=
  decide (a.wall < b.wall) ||
    (decide (a.wall = b.wall) &&
      (decide (a.zoneSign < b.zoneSign) ||
        (decide (a.zoneSign = b.zoneSign) && decide (a.offset.natAbs ≤ b.offset.natAbs))))

/-- The struct `model.URL`. -/
structure URL where
  ID : Int
  ShortCode : String
  LongURL : String
  CreatedAt : Time
  Clicks : Int
  deriving DecidableEq, Repr

/-- `model.NewURL`; `now` is the value of `time.Now()`. The field `ID` keeps
Go's zero value. -/
def NewURL (shortCode longURL : String) (now : Time) : URL :=
  { ID := 0, ShortCode := shortCode, LongURL := longURL, CreatedAt := now, Clicks := 0 }

/-! ## database/sqlite.go -/

/-- The table `urls` created by `initSchema`: its rows in rowid order and the
largest rowid ever handed out (`sqlite_sequence`). -/
structure Database where
  urls : List URL
  seq : Int
  deriving DecidableEq, Repr

/-- The database right after `initSchema` on a fresh file. -/
def Database.empty : Database := { urls := [], seq := 0 }

/-- The short codes of the stored rows. -/
def Database.codes (d : Database) : List String := d.urls.map URL.ShortCode

/-- Largest rowid present in the table (0 for an empty table). -/
def maxRowid (rows : List URL) : Int := rows.foldr (fun u m => max u.ID m) 0

/-- The rowid an `INTEGER PRIMARY KEY AUTOINCREMENT` column gives to the next
row: one more than the largest rowid that ever existed in the table. -/
def nextRowid (d : Database) : Int := max d.seq (maxRowid d.urls) + 1

/-- `Database.SaveURL`: the `INSERT` statement followed by `LastInsertId`.
`execFault` is a failure of `Exec` raised by the driver, `idFault` a failure of
`LastInsertId`. The `UNIQUE` constraint on `short_code` rejects a row whose
code is already stored. Returns the error or the record with its `ID` set,
and the table afterwards. -/
def SaveURL (d : Database) (execFault idFault : Option String) (url : URL) :
    Except GoError URL × Database :=
  match execFault with
  | some m => (.error (.wrap "failed to save URL: " (.external m)), d)
  | none =>
    if d.urls.any (fun r => r.ShortCode == url.ShortCode) then
      (.error (.wrap "failed to save URL: "
        (.external "UNIQUE constraint failed: urls.short_code")), d)
    else
      let id := nextRowid d
      let row : URL := { ID := id, ShortCode := url.ShortCode, LongURL := url.LongURL,
                         CreatedAt := url.CreatedAt, Clicks := url.Clicks }
      let d' : Database := { urls := d.urls ++ [row], seq := id }
      match idFault with
      | some m => (.error (.wrap "failed to get last insert ID: " (.external m)), d')
      | none => (.ok { url with ID := id }, d')

/-- The call `d.db.QueryRow(query, shortCode).Scan(...)` of `GetURLByShortCode`:
the first row whose `short_code` equals the argument, `sql.ErrNoRows` when
there is none. -/
def queryRowScan (d : Database) (fault : Option String) (shortCode : String) :
    Except GoError URL :=
  match fault with
  | some m => .error (.external m)
  | none =>
    match d.urls.find? (fun r => r.ShortCode == shortCode) with
    | none => .error .ErrNoRows
    | some r => .ok r

/-- `Database.GetURLByShortCode`; `.ok none` is Go's `(nil, nil)`. -/
def GetURLByShortCode (d : Database) (fault : Option String) (shortCode : String) :
    Except GoError (Option URL) :=
  match queryRowScan d fault shortCode with
  | .error .ErrNoRows => .ok none
  | .error err => .error (.wrap "failed to get URL: " err)
  | .ok url => .ok (some url)

/-- Whether the value of an `INTEGER` column is a 64-bit integer, which `Scan`
can read into an `int64` field. -/
def fitsInt64 (n : Int) : Bool :=
  decide (-9223372036854775808 ≤ n) && decide (n < 9223372036854775808)

/-- The value of the SQL expression `clicks + 1`: one more for a 64-bit
integer (the sum of `9223372036854775807` and 1 no longer is one: SQLite
makes it the `REAL` 9223372036854775808.0), and the same `REAL` again for a
`REAL` of that size. -/
def sqlPlusOne (n : Int) : Int := if fitsInt64 n then n + 1 else n

/-- The failure of `Scan` that the stored row forces on a lookup of
`shortCode`: a `clicks` value that is no 64-bit integer cannot be converted
to `int64`. -/
def scanFault (d : Database) (shortCode : String) : Option String :=
  match d.urls.find? (fun r => r.ShortCode == shortCode) with
  | some r =>
    if fitsInt64 r.Clicks then none
    else some "converting driver.Value type float64 to a int64: invalid syntax"
  | none => none

/-- `Database.IncrementClicks`: the `UPDATE` statement. Returns Go's `error`
(`none` is `nil`) and the table afterwards. -/
def IncrementClicks (d : Database) (fault : Option String) (shortCode : String) :
    Option GoError × Database :=
  match fault with
  | some m => (some (.wrap "failed to increment clicks: " (.external m)), d)
  | none =>
    (none, { d with urls := d.urls.map (fun r =>
      if r.ShortCode == shortCode then { r with Clicks := sqlPlusOne r.Clicks } else r) })

/-- What the driver does while `ListURLs` runs: a failure of `Query`, which
of the fetched rows fail to `Scan`, and the value of `rows.Err()`. -/
structure ListFaults where
  query : Option String
  scan : Nat → Bool
  iter : Option String

/-- The row loop of `ListURLs`: row number `k` onward; a row whose `Scan`
fails is logged and skipped. -/
def scanRows (scan : Nat → Bool) : Nat → List URL → List URL
  | _, [] => []
  | k, r :: rs => if scan k then scanRows scan (k + 1) rs else r :: scanRows scan (k + 1) rs

/-- `Database.ListURLs`: `ORDER BY created_at DESC` over the table, which
compares the stored texts (rows with equal texts keep their rowid order). -/
def Database.ListURLs (d : Database) (f : ListFaults) : Except GoError (List URL) :=
  match f.query with
  | some m => .error (.wrap "failed to list URLs: " (.external m))
  | none =>
    let rows := d.urls.insertionSort (fun a b => Time.textLe b.CreatedAt a.CreatedAt)
    let urls := scanRows f.scan 0 rows
    match f.iter with
    | some m => .error (.wrap "error iterating URL rows: " (.external m))
    | none => .ok urls

/-- `Database.DeleteURL`: the `DELETE` statement. -/
def Database.DeleteURL (d : Database) (fault : Option String) (shortCode : String) :
    Option GoError × Database :=
  match fault with
  | some m => (some (.wrap "failed to delete URL: " (.external m)), d)
  | none => (none, { d with urls := d.urls.filter (fun r => !(r.ShortCode == shortCode)) })

/-! ## service/url_service.go -/

/-- `strings.HasPrefix`. -/
def HasPrefix (s pfx : String) : Bool := pfx.data.isPrefixOf s.data

/-- The constant `charset` of `generateShortCode`. -/
def charset : String := "abcdefghijklmnopqrstuvwxyzABCDEFGHIJKLMNOPQRSTUVWXYZ0123456789"

/-- `rand.Read(b)`: either fails, or overwrites every byte of `b` with the
next bytes of the entropy stream. -/
def randRead (src : Except String (Nat → Nat)) (b : List Nat) : Except GoError (List Nat) :=
  match src with
  | .error m => .error (.external m)
  | .ok f => .ok ((List.range b.length).map (fun i => f i % 256))

/-- The symbol `charset[b%byte(len(charset))]` chosen for the random byte `b`
(an index past the end of `charset` would give the NUL character). -/
def pickSymbol (b : Nat) : Char :=
  charset.data.getD (b % (charset.length % 256)) (Char.ofNat 0)

/-- `generateShortCode`; `src` is what `rand.Read` does on this call. -/
def generateShortCode (length : Nat) (src : Except String (Nat → Nat)) :
    Except GoError String :=
  let randomBytes := List.replicate length 0
  match randRead src randomBytes with
  | .error err => .error err
  | .ok randomBytes => .ok (String.mk (randomBytes.map pickSymbol))

/-- Everything `ShortenURL` reads from outside the program. -/
structure World where
  /-- the value of `time.Now()` in `NewURL` -/
  now : Time
  /-- what the `k`-th call of `rand.Read` does -/
  rand : Nat → Except String (Nat → Nat)
  /-- driver failure of the `k`-th `GetURLByShortCode` -/
  lookupFault : Nat → Option String
  /-- driver failure of the `INSERT` -/
  saveFault : Option String
  /-- driver failure of `LastInsertId` -/
  idFault : Option String

/-- The loop `for { ... }` of `ShortenURL` that makes the generated code
unique; `k` counts the iterations done so far. -/
def uniqueLoop (d : Database) (w : World) : Nat → Nat → String → Option (Except GoError String)
  | 0, _, _ => none
  | fuel + 1, k, shortCode =>
    match GetURLByShortCode d (w.lookupFault k) shortCode with
    | .error err => some (.error (.wrap "error checking short code: " err))
    | .ok none => some (.ok shortCode)
    | .ok (some _) =>
      match generateShortCode 6 (w.rand (k + 1)) with
      | .error err => some (.error (.wrap "failed to generate short code: " err))
      | .ok shortCode => uniqueLoop d w fuel (k + 1) shortCode

/-- The choice of the short code in `ShortenURL` (the `if customCode != ""`
statement). -/
def chooseCode (fuel : Nat) (d : Database) (w : World) (customCode : String) :
    Option (Except GoError String) :=
  if customCode ≠ "" then
    match GetURLByShortCode d (w.lookupFault 0) customCode with
    | .error err => some (.error (.wrap "error checking custom code: " err))
    | .ok (some _) =>
      some (.error (.errorf ("custom code '" ++ customCode ++ "' is already in use")))
    | .ok none => some (.ok customCode)
  else
    match generateShortCode 6 (w.rand 0) with
    | .error err => some (.error (.wrap "failed to generate short code: " err))
    | .ok shortCode => uniqueLoop d w fuel 0 shortCode

/-- `URLService.ShortenURL`. The result is `none` when the loop has not
finished within `fuel` iterations, and otherwise Go's `(*model.URL, error)`
together with the table afterwards. -/
def ShortenURL (fuel : Nat) (d : Database) (w : World) (longURL customCode : String) :
    Option (Except GoError URL × Database) :=
  let longURL :=
    if !HasPrefix longURL "http://" && !HasPrefix longURL "https://" then
      "https://" ++ longURL
    else longURL
  match chooseCode fuel d w customCode with
  | none => none
  | some (.error err) => some (.error err, d)
  | some (.ok shortCode) =>
    let url := NewURL shortCode longURL w.now
    match SaveURL d w.saveFault w.idFault url with
    | (.error err, d') => some (.error (.wrap "failed to save URL: " err), d')
    | (.ok url, d') => some (.ok url, d')

/-- `URLService.GetURL`. -/
def GetURL (d : Database) (fault : Option String) (shortCode : String) :
    Except GoError (Option URL) :=
  match GetURLByShortCode d fault shortCode with
  | .error err => .error (.wrap "failed to get URL: " err)
  | .ok url => .ok url

/-- `URLService.RecordClick`. -/
def RecordClick (d : Database) (fault : Option String) (shortCode : String) :
    Option GoError × Database :=
  IncrementClicks d fault shortCode

/-- `URLService.ListURLs`. -/
def ListURLs (d : Database) (f : ListFaults) : Except GoError (List URL) :=
  d.ListURLs f

/-- `URLService.DeleteURL`. -/
def DeleteURL (d : Database) (fault : Option String) (shortCode : String) :
    Option GoError × Database :=
  d.DeleteURL fault shortCode

/-! ## handler/http_handler.go -/

/-- The method `Error()` of the error values: the message text. -/
def GoError.Error : GoError → String
  | .external msg => msg
  | .ErrNoRows => "sql: no rows in result set"
  | .errorf msg => msg
  | .wrap msg err => msg ++ err.Error
  | .ErrCustomCodeAlreadyExists Code => "custom code '" ++ Code ++ "' is already in use"
  | .ErrURLNotFound Code => "URL with code '" ++ Code ++ "' not found"
  | .ErrInvalidURL URL => "invalid URL: " ++ URL
  | .ErrDatabaseError Err => "database error: " ++ Err.Error

/-- The call of `net/http` with which a handler answers the request. -/
inductive Response where
  /-- the call `http.ServeFile(w, r, name)` -/
  | serveFile (name : String)
  /-- the call `http.Error(w, body, code)` -/
  | error (body : String) (code : Nat)
  /-- the call `http.Redirect(w, r, url, code)` -/
  | redirect (url : String) (code : Nat)
  deriving DecidableEq, Repr

/-- The status code of the answer; `none` where the file server of `net/http`
chooses it. -/
def Response.statusCode : Response → Option Nat
  | .serveFile _ => none
  | .error _ code => some code
  | .redirect _ code => some code

/-- The bytes of the UTF-8 encoding of a character. -/
def utf8Bytes (c : Char) : List Nat :=
  let v := c.toNat
  if v < 128 then [v]
  else if v < 2048 then [192 + v / 64, 128 + v % 64]
  else if v < 65536 then [224 + v / 4096, 128 + v / 64 % 64, 128 + v % 64]
  else [240 + v / 262144, 128 + v / 4096 % 64, 128 + v / 64 % 64, 128 + v % 64]

/-- The digit of `strconv.AppendInt(b, n, 16)` for `n` below 16. -/
def hexDigit (n : Nat) : Char := "0123456789abcdef".data.getD n '0'

/-- The function `hexEscapeNonASCII` of `net/http`: every byte from 128 on
becomes `%` and its two hexadecimal digits; ASCII bytes stay. -/
def hexEscapeNonASCII (s : String) : String :=
  String.mk (s.data.flatMap fun c =>
    if c.toNat < 128 then [c]
    else (utf8Bytes c).flatMap fun b => ['%', hexDigit (b / 16), hexDigit (b % 16)])

/-- The `Location` value that `http.Redirect` sets in the header map for a
target starting with `http://` or `https://`: the target after
`hexEscapeNonASCII`. The
result is `none` for an answer without that header, and also for a redirect
to a target of another form, which `net/http` may resolve against the path
of the request and which is not covered here. -/
def Response.location : Response → Option String
  | .redirect url _ =>
    if HasPrefix url "http://" || HasPrefix url "https://" then some (hexEscapeNonASCII url)
    else none
  | _ => none

/-- What `redirectHandler` does: its answer, and the code for which it
starts `go h.urlService.RecordClick(code)`, if any. -/
structure HandlerResult where
  response : Response
  click : Option String
  deriving DecidableEq, Repr

/-- `HTTPHandler.redirectHandler` over the service of `service/url_service.go`;
`code` is `chi.URLParam(r, "code")` and `fault` a driver failure during the
lookup. -/
def redirectHandler (d : Database) (fault : Option String) (code : String) : HandlerResult :=
  if code = "favicon.ico" then
    { response := .serveFile "./static/favicon.ico", click := none }
  else
    match GetURL d fault code with
    | .error err =>
      { response := .error ("Failed to retrieve URL: " ++ err.Error) 500, click := none }
    | .ok none => { response := .error "URL not found" 404, click := none }
    | .ok (some url) => { response := .redirect url.LongURL 302, click := some code }

/-! ## Sequences of service calls -/

/-- One call of the service, with what the outside world does during it. -/
inductive Op where
  | shorten (fuel : Nat) (w : World) (longURL customCode : String)
  | get (fault : Option String) (shortCode : String)
  | click (fault : Option String) (shortCode : String)
  | list (f : ListFaults)
  | delete (fault : Option String) (shortCode : String)

/-- The table after one call (`none` when the call does not return). -/
def Op.apply (d : Database) : Op → Option Database
  | .shorten fuel w longURL customCode => (ShortenURL fuel d w longURL customCode).map Prod.snd
  | .get _ _ => some d
  | .click fault shortCode => some (RecordClick d fault shortCode).2
  | .list _ => some d
  | .delete fault shortCode => some (DeleteURL d fault shortCode).2

/-- The table after a sequence of calls, each one returning. -/
def runOps : Database → List Op → Option Database
  | d, [] => some d
  | d, op :: ops => (op.apply d).bind (fun d' => runOps d' ops)

/-- Whether the call is a `DeleteURL` of the code `c`. -/
def Op.deletes (c : String) : Op → Bool
  | .delete _ shortCode => shortCode == c
  | _ => false

/-- A world in which nothing fails, the clock shows the instant `now` in the
zone UTC and `rand.Read` delivers the bytes of `f` on its `k`-th call. -/
def World.calm (now : Int) (f : Nat → Nat → Nat) : World :=
  { now := Time.utc now, rand := fun k => .ok (f k), lookupFault := fun _ => none,
    saveFault := none, idFault := none }

/-! ## Sample data -/

/-- A world in which nothing fails, the clock reads 7 and `rand.Read` delivers
zero bytes only, so that every generated code is `aaaaaa`. -/
def quietWorld : World := World.calm 7 (fun _ _ => 0)

/-- The record made from `example.com` with a generated code in `quietWorld`. -/
def exampleRow : URL :=
  { ID := 1, ShortCode := "aaaaaa", LongURL := "https://example.com",
    CreatedAt := Time.utc 7, Clicks := 0 }

/-- The record made from `example.com` with the custom code `dup`. -/
def dupRow : URL :=
  { ID := 1, ShortCode := "dup", LongURL := "https://example.com",
    CreatedAt := Time.utc 7, Clicks := 0 }

/-- The record made from `example.org` with a generated code in `quietWorld`
after `exampleRow` was stored and deleted again. -/
def reusedRow : URL :=
  { ID := 2, ShortCode := "aaaaaa", LongURL := "https://example.org",
    CreatedAt := Time.utc 7, Clicks := 0 }

/-- A world in which nothing fails, the clock reads 9 and the `k`-th call of
`rand.Read` delivers bytes equal to `k`: the generated candidates are
`aaaaaa`, `bbbbbb`, `cccccc`, ... -/
def retryWorld : World := World.calm 9 (fun k _ => k)

/-- The record made from `example.org` in `retryWorld` while `aaaaaa` is taken. -/
def retryRow : URL :=
  { ID := 2, ShortCode := "bbbbbb", LongURL := "https://example.org",
    CreatedAt := Time.utc 9, Clicks := 0 }

/-- The candidate codes that `retryWorld` generates. -/
def retryCandidates (k : Nat) : String :=
  String.mk (((List.range 6).map (fun _ => k % 256)).map pickSymbol)

/-- The record made from `http://example.com/a?b=c` with the custom code `x y/Z!`. -/
def customRow : URL :=
  { ID := 1, ShortCode := "x y/Z!", LongURL := "http://example.com/a?b=c", CreatedAt := Time.utc 7,
    Clicks := 0 }

/-- A stored record whose code is `Abc`. -/
def mixedCaseRow : URL :=
  { ID := 4, ShortCode := "Abc", LongURL := "https://example.net",
    CreatedAt := Time.utc 3, Clicks := 2 }

/-- The record that `TestRecordClick` creates: `https://example.com` under the
custom code `test`. -/
def testRow : URL :=
  { ID := 1, ShortCode := "test", LongURL := "https://example.com",
    CreatedAt := Time.utc 7, Clicks := 0 }

/-- A run of `ListURLs` during which the driver reports no failure. -/
def ListFaults.calm : ListFaults := { query := none, scan := fun _ => false, iter := none }

/-- The table after `n` calls of `RecordClick c`, each one carried out by the
store. -/
def recordClicks (d : Database) (c : String) : Nat → Database
  | 0 => d
  | n + 1 => (RecordClick (recordClicks d c n) none c).2

/-- The record made first, under the custom code `first`, while the clock
reads 9. -/
def firstRow : URL :=
  { ID := 1, ShortCode := "first", LongURL := "https://a.example",
    CreatedAt := Time.utc 9, Clicks := 0 }

/-- The record made second, under the custom code `second`, after the clock
was set back to 7. -/
def secondRow : URL :=
  { ID := 2, ShortCode := "second", LongURL := "https://b.example",
    CreatedAt := Time.utc 7, Clicks := 0 }

/-- The record that `ShortenURL` makes from the empty target in `quietWorld`. -/
def emptyTargetRow : URL :=
  { ID := 1, ShortCode := "aaaaaa", LongURL := "https://", CreatedAt := Time.utc 7, Clicks := 0 }

/-- A world like `quietWorld` in which the driver refuses the `INSERT`. -/
def fullDiskWorld : World := { quietWorld with saveFault := some "disk I/O error" }

/-- A world like `quietWorld` in which `LastInsertId` fails after the `INSERT`
was carried out. -/
def lostIdWorld : World := { quietWorld with idFault := some "no insert id" }

/-- A record stored under the custom code `favicon.ico`. -/
def faviconRow : URL :=
  { ID := 1, ShortCode := "favicon.ico", LongURL := "https://example.com", CreatedAt := Time.utc 7,
    Clicks := 0 }

/-- A run of `ListURLs` during which `Scan` fails on every row and nothing
else fails. -/
def ListFaults.badRows : ListFaults := { query := none, scan := fun _ => true, iter := none }

/-- A world like `quietWorld` whose clock shows 2024-10-27 02:30 in a zone two
hours east of UTC (00:30 UTC). -/
def summerWorld : World :=
  { quietWorld with now := { instant := 1729989000000000000, offset := 120 } }

/-- A world like `quietWorld` whose clock shows 02:10 of the same day in a
zone one hour east of UTC (01:10 UTC), 40 minutes after `summerWorld`. -/
def winterWorld : World :=
  { quietWorld with now := { instant := 1729991400000000000, offset := 60 } }

/-- The record made in `summerWorld` under the custom code `summer`. -/
def summerRow : URL :=
  { ID := 1, ShortCode := "summer", LongURL := "https://a.example",
    CreatedAt := { instant := 1729989000000000000, offset := 120 }, Clicks := 0 }

/-- The record made after it in `winterWorld` under the custom code `winter`. -/
def winterRow : URL :=
  { ID := 2, ShortCode := "winter", LongURL := "https://b.example",
    CreatedAt := { instant := 1729991400000000000, offset := 60 }, Clicks := 0 }

/-- A record whose target has a character outside ASCII, as `ShortenURL` makes
it from `https://example.com/é` under the custom code `cafe`. -/
def accentRow : URL :=
  { ID := 1, ShortCode := "cafe", LongURL := "https://example.com/é", CreatedAt := Time.utc 7,
    Clicks := 0 }

/-- The number of byte values `0..255` for which `generateShortCode` picks the
symbol `ch`. -/
def selectCount (ch : Char) : Nat :=
  ((List.range 256).filter (fun b => pickSymbol b = ch)).length

/-! ## Lookups -/

theorem find_code_none (rows : List URL) (c : String) :
    rows.find? (fun r => r.ShortCode == c) = none ↔ c ∉ rows.map URL.ShortCode := by
  simp [List.find?_eq_none]

theorem find_code_some (rows : List URL) (c : String) (u : URL)
    (h : rows.find? (fun r => r.ShortCode == c) = some u) : u ∈ rows ∧ u.ShortCode = c := by
  have h1 := List.mem_of_find?_eq_some h
  have h2 := List.find?_some h
  exact ⟨h1, by simpa using h2⟩

theorem lookup_none_iff (d : Database) (fault : Option String) (c : String) :
    GetURLByShortCode d fault c = .ok none ↔ fault = none ∧ c ∉ d.codes := by
  unfold GetURLByShortCode queryRowScan Database.codes
  cases fault with
  | some m => simp
  | none =>
    cases hf : d.urls.find? (fun r => r.ShortCode == c) with
    | none => simpa using (find_code_none d.urls c).1 hf
    | some u =>
      have := find_code_some d.urls c u hf
      simp
      exact ⟨u, this.1, this.2⟩

theorem lookup_some (d : Database) (fault : Option String) (c : String) (u : URL)
    (h : GetURLByShortCode d fault c = .ok (some u)) :
    fault = none ∧ u ∈ d.urls ∧ u.ShortCode = c := by
  unfold GetURLByShortCode queryRowScan at h
  cases fault with
  | some m => simp at h
  | none =>
    cases hf : d.urls.find? (fun r => r.ShortCode == c) with
    | none => simp [hf] at h
    | some v =>
      simp [hf] at h
      subst h
      exact ⟨rfl, find_code_some d.urls c v hf⟩

theorem lookup_of_mem (d : Database) (c : String) (h : c ∈ d.codes) :
    ∃ u, GetURLByShortCode d none c = .ok (some u) := by
  unfold GetURLByShortCode queryRowScan
  cases hf : d.urls.find? (fun r => r.ShortCode == c) with
  | none => exact absurd h ((find_code_none d.urls c).1 hf)
  | some v => exact ⟨v, rfl⟩

/-! ## Inserting -/

theorem any_code_iff (rows : List URL) (c : String) :
    rows.any (fun r => r.ShortCode == c) = true ↔ c ∈ rows.map URL.ShortCode := by
  simp [List.any_eq_true]

theorem SaveURL_ok (d d' : Database) (ef idf : Option String) (url r : URL)
    (h : SaveURL d ef idf url = (.ok r, d')) :
    url.ShortCode ∉ d.codes ∧ r = { url with ID := nextRowid d } ∧
      d' = { urls := d.urls ++ [r], seq := nextRowid d } ∧ ef = none ∧ idf = none := by
  unfold SaveURL at h
  cases ef with
  | some m => simp at h
  | none =>
    by_cases hc : d.urls.any (fun r => r.ShortCode == url.ShortCode) = true
    · simp [hc] at h
    · cases idf with
      | some m => simp [hc] at h
      | none =>
        simp only [hc] at h
        simp at h
        obtain ⟨h1, h2⟩ := h
        subst h1
        refine ⟨?_, rfl, ?_, rfl, rfl⟩
        · rw [any_code_iff] at hc
          exact hc
        · rw [← h2]

theorem SaveURL_absent (d : Database) (url : URL) (h : url.ShortCode ∉ d.codes) :
    SaveURL d none none url =
      (.ok { url with ID := nextRowid d },
       { urls := d.urls ++ [{ url with ID := nextRowid d }], seq := nextRowid d }) := by
  unfold SaveURL
  have hc : ¬ d.urls.any (fun r => r.ShortCode == url.ShortCode) = true := by
    rw [any_code_iff]; exact h
  simp only [hc]
  simp

/-- A failed `SaveURL` whose `INSERT` was refused leaves the table as it was. -/
theorem SaveURL_state (d : Database) (ef idf : Option String) (url : URL) :
    (SaveURL d ef idf url).2 = d ∨
      (url.ShortCode ∉ d.codes ∧ (SaveURL d ef idf url).2 =
        { urls := d.urls ++ [{ url with ID := nextRowid d }], seq := nextRowid d }) := by
  unfold SaveURL
  cases ef with
  | some m => simp
  | none =>
    by_cases hc : d.urls.any (fun r => r.ShortCode == url.ShortCode) = true
    · simp [hc]
    · right
      refine ⟨by rw [any_code_iff] at hc; exact hc, ?_⟩
      cases idf <;> simp [hc]

/-! ## Choosing the code -/

theorem uniqueLoop_ok (d : Database) (w : World) (fuel k : Nat) (sc code : String)
    (h : uniqueLoop d w fuel k sc = some (.ok code)) : code ∉ d.codes := by
  induction fuel generalizing k sc with
  | zero => simp [uniqueLoop] at h
  | succ n ih =>
    unfold uniqueLoop at h
    cases hl : GetURLByShortCode d (w.lookupFault k) sc with
    | error e => simp [hl] at h
    | ok o =>
      cases o with
      | none =>
        simp [hl] at h
        subst h
        exact ((lookup_none_iff d _ sc).1 hl).2
      | some u =>
        simp only [hl] at h
        cases hg : generateShortCode 6 (w.rand (k + 1)) with
        | error e => simp [hg] at h
        | ok sc' =>
          simp only [hg] at h
          exact ih _ _ h

theorem chooseCode_ok (fuel : Nat) (d : Database) (w : World) (c code : String)
    (h : chooseCode fuel d w c = some (.ok code)) :
    code ∉ d.codes ∧ (c ≠ "" → code = c) := by
  unfold chooseCode at h
  by_cases hc : c = ""
  · simp only [hc, ne_eq, not_true_eq_false, if_false] at h
    refine ⟨?_, fun h' => absurd hc h'⟩
    cases hg : generateShortCode 6 (w.rand 0) with
    | error e => simp [hg] at h
    | ok sc =>
      simp only [hg] at h
      exact uniqueLoop_ok d w fuel 0 sc code h
  · simp only [ne_eq, hc, not_false_eq_true, if_true] at h
    cases hl : GetURLByShortCode d (w.lookupFault 0) c with
    | error e => simp [hl] at h
    | ok o =>
      cases o with
      | none =>
        simp [hl] at h
        subst h
        exact ⟨((lookup_none_iff d _ c).1 hl).2, fun _ => rfl⟩
      | some u => simp [hl] at h

/-- The target that `ShortenURL` stores for the argument `longURL`. -/
theorem ShortenURL_ok (fuel : Nat) (d d' : Database) (w : World) (t c : String) (r : URL)
    (h : ShortenURL fuel d w t c = some (.ok r, d')) :
    ∃ code, chooseCode fuel d w c = some (.ok code) ∧ code ∉ d.codes ∧
      r = { ID := nextRowid d, ShortCode := code,
            LongURL := if (!HasPrefix t "http://" && !HasPrefix t "https://") = true
                       then "https://" ++ t else t,
            CreatedAt := w.now, Clicks := 0 } ∧
      d' = { urls := d.urls ++ [r], seq := nextRowid d } := by
  unfold ShortenURL at h
  cases hch : chooseCode fuel d w c with
  | none => simp [hch] at h
  | some res =>
    cases res with
    | error e => simp [hch] at h
    | ok code =>
      simp only [hch] at h
      refine ⟨code, rfl, (chooseCode_ok fuel d w c code hch).1, ?_⟩
      generalize hs : SaveURL d w.saveFault w.idFault _ = sv at h
      obtain ⟨res, d2⟩ := sv
      cases res with
      | error e => simp at h
      | ok r2 =>
        simp at h
        obtain ⟨h1, h2⟩ := h
        subst h1 h2
        have := SaveURL_ok _ _ _ _ _ _ hs
        exact ⟨this.2.1, this.2.2.1⟩

/-! ## The table after each call -/

theorem ShortenURL_state (fuel : Nat) (d d' : Database) (w : World) (t c : String)
    (res : Except GoError URL) (h : ShortenURL fuel d w t c = some (res, d')) :
    d' = d ∨ ∃ row : URL, row.ShortCode ∉ d.codes ∧
      d' = { urls := d.urls ++ [row], seq := nextRowid d } := by
  unfold ShortenURL at h
  cases hch : chooseCode fuel d w c with
  | none => simp [hch] at h
  | some cr =>
    cases cr with
    | error e =>
      simp [hch] at h
      exact Or.inl h.2.symm
    | ok code =>
      simp only [hch] at h
      generalize hu : NewURL code _ w.now = url at h
      have hst := SaveURL_state d w.saveFault w.idFault url
      generalize hs : SaveURL d w.saveFault w.idFault url = sv at h hst
      obtain ⟨r2, d2⟩ := sv
      have hd : d2 = d' := by
        cases r2 <;> simp at h <;> exact h.2
      subst hd
      rcases hst with h1 | ⟨h1, h2⟩
      · exact Or.inl h1
      · exact Or.inr ⟨{ url with ID := nextRowid d }, h1, h2⟩

theorem RecordClick_codes (d : Database) (fault : Option String) (c : String) :
    (RecordClick d fault c).2.codes = d.codes := by
  unfold RecordClick IncrementClicks Database.codes
  cases fault with
  | some m => rfl
  | none =>
    simp only [List.map_map]
    apply List.map_congr_left
    intro r _
    by_cases h : r.ShortCode = c <;> simp [h]

theorem DeleteURL_codes (d : Database) (fault : Option String) (c : String) :
    (DeleteURL d fault c).2.codes = d.codes ∨
      (DeleteURL d fault c).2.codes = d.codes.filter (fun x => !(x == c)) := by
  unfold DeleteURL Database.DeleteURL Database.codes
  cases fault with
  | some m => exact Or.inl rfl
  | none =>
    right
    simp only [List.filter_map]
    rfl

theorem apply_nodup (d d' : Database) (op : Op) (h : op.apply d = some d')
    (hn : d.codes.Nodup) : d'.codes.Nodup := by
  cases op with
  | shorten fuel w t c =>
    cases h1 : ShortenURL fuel d w t c with
    | none => simp [Op.apply, h1] at h
    | some p =>
    obtain ⟨res, d2⟩ := p
    simp only [Op.apply, h1, Option.map_some', Option.some.injEq] at h
    subst h
    rcases ShortenURL_state fuel d d2 w t c res h1 with h3 | ⟨row, h3, h4⟩
    · rw [h3]; exact hn
    · subst h4
      simp only [Database.codes, List.map_append, List.map_cons, List.map_nil]
      rw [List.nodup_append]
      refine ⟨hn, List.nodup_singleton _, ?_⟩
      intro a ha hb
      simp only [List.mem_singleton] at hb
      subst hb
      exact h3 ha
  | get f c =>
    simp only [Op.apply, Option.some.injEq] at h
    subst h; exact hn
  | click f c =>
    simp only [Op.apply, Option.some.injEq] at h
    subst h
    rw [RecordClick_codes]; exact hn
  | list f =>
    simp only [Op.apply, Option.some.injEq] at h
    subst h; exact hn
  | delete f c =>
    simp only [Op.apply, Option.some.injEq] at h
    subst h
    rcases DeleteURL_codes d f c with h1 | h1
    · rw [h1]; exact hn
    · rw [h1]; exact hn.filter _

theorem runOps_nodup (ops : List Op) (d d' : Database) (h : runOps d ops = some d')
    (hn : d.codes.Nodup) : d'.codes.Nodup := by
  induction ops generalizing d with
  | nil =>
    simp only [runOps, Option.some.injEq] at h
    subst h; exact hn
  | cons op ops ih =>
    simp only [runOps, Option.bind_eq_some] at h
    obtain ⟨d1, h1, h2⟩ := h
    exact ih d1 h2 (apply_nodup d d1 op h1 hn)

/-! ## C1: normalisation of the target -/

theorem hasPrefix_append (p t : String) : HasPrefix (p ++ t) p = true := by
  unfold HasPrefix
  rw [List.isPrefixOf_iff_prefix, String.data_append]
  exact List.prefix_append _ _

/-- C1: a successful `ShortenURL t c` returns a record, stored in the table,
whose `LongURL` is `t` itself when `t` starts with `http://` or `https://` and
is `"https://" ++ t` otherwise; the stored target always starts with one of
the two schemes. -/
theorem shorten_target_has_scheme (fuel : Nat) (d d' : Database) (w : World)
    (t c : String) (r : URL) (h : ShortenURL fuel d w t c = some (.ok r, d')) :
    ((HasPrefix t "http://" = true ∨ HasPrefix t "https://" = true) → r.LongURL = t) ∧
    ((HasPrefix t "http://" = false ∧ HasPrefix t "https://" = false) →
      r.LongURL = "https://" ++ t) ∧
    (HasPrefix r.LongURL "http://" = true ∨ HasPrefix r.LongURL "https://" = true) ∧
    r ∈ d'.urls := by
  obtain ⟨code, -, -, hr, hd⟩ := ShortenURL_ok fuel d d' w t c r h
  have hl : r.LongURL = if (!HasPrefix t "http://" && !HasPrefix t "https://") = true
      then "https://" ++ t else t := by rw [hr]
  refine ⟨?_, ?_, ?_, ?_⟩
  · intro hp
    rw [hl]
    rcases hp with hp | hp <;> simp [hp]
  · intro hp
    rw [hl]
    simp [hp.1, hp.2]
  · rw [hl]
    cases h1 : HasPrefix t "http://" with
    | true => simp [h1]
    | false =>
      cases h2 : HasPrefix t "https://" with
      | true => simp [h2]
      | false =>
        right
        simp only [Bool.not_false, Bool.and_self, if_true]
        exact hasPrefix_append _ _
  · rw [hd]
    simp

theorem shorten_target_has_scheme_witness :
    ((HasPrefix "example.com" "http://" = false ∧ HasPrefix "example.com" "https://" = false) →
      exampleRow.LongURL = "https://" ++ "example.com") ∧
    (HasPrefix exampleRow.LongURL "http://" = true ∨
      HasPrefix exampleRow.LongURL "https://" = true) ∧
    exampleRow ∈ [exampleRow] :=
  (shorten_target_has_scheme 1 Database.empty { urls := [exampleRow], seq := 1 } quietWorld
    "example.com" "" exampleRow rfl).2

/-! ## C2: a custom code that is taken -/

/-- C2: when `ShortenURL t1 c` succeeds for a non-empty custom code `c`, a
following `ShortenURL t2 c` returns an error and no record, whatever the
outside world does, and leaves the table as it was: the only record with code
`c` is the one of the first call. -/
theorem shorten_duplicate_custom_code (fuel1 fuel2 : Nat) (d d1 : Database) (w1 w2 : World)
    (t1 t2 c : String) (r : URL) (hc : c ≠ "")
    (h : ShortenURL fuel1 d w1 t1 c = some (.ok r, d1)) :
    (∃ err, ShortenURL fuel2 d1 w2 t2 c = some (.error err, d1)) ∧
    (∀ u ∈ d1.urls, u.ShortCode = c → u = r) := by
  obtain ⟨code, hch, hnot, hr, hd⟩ := ShortenURL_ok fuel1 d d1 w1 t1 c r h
  have hcode : code = c := (chooseCode_ok fuel1 d w1 c code hch).2 hc
  subst hcode
  have hrc : r.ShortCode = code := by rw [hr]
  have hmem : code ∈ d1.codes := by
    rw [hd]
    simp [Database.codes, hrc]
  constructor
  · unfold ShortenURL chooseCode
    simp only [ne_eq, hc, not_false_eq_true, if_true]
    cases hl : GetURLByShortCode d1 (w2.lookupFault 0) code with
    | error e => exact ⟨_, rfl⟩
    | ok o =>
      cases o with
      | none => exact absurd hmem ((lookup_none_iff d1 _ code).1 hl).2
      | some u => exact ⟨_, rfl⟩
  · intro u hu huc
    rw [hd] at hu
    simp only [List.mem_append, List.mem_singleton] at hu
    rcases hu with hu | hu
    · exact absurd (List.mem_map_of_mem URL.ShortCode hu) (by rw [huc]; exact hnot)
    · exact hu

theorem shorten_duplicate_custom_code_witness :
    (∃ err, ShortenURL 0 { urls := [dupRow], seq := 1 } quietWorld "other.org" "dup" =
      some (.error err, { urls := [dupRow], seq := 1 })) ∧
    (∀ u ∈ [dupRow], u.ShortCode = "dup" → u = dupRow) :=
  shorten_duplicate_custom_code 0 0 Database.empty { urls := [dupRow], seq := 1 }
    quietWorld quietWorld "example.com" "other.org" "dup" dupRow (by decide) rfl

/-! ## C3: stored codes are unique -/

/-- C3: in every table, the insert of a successful `ShortenURL` adds exactly
one row, under the code that the check before it found absent (the custom
code itself when one is given); hence in every table reached from the empty
one by calls of the service no two rows share a short code. -/
theorem stored_codes_unique :
    (∀ (fuel : Nat) (d d' : Database) (w : World) (t c : String) (r : URL),
      ShortenURL fuel d w t c = some (.ok r, d') →
        r.ShortCode ∉ d.codes ∧ (c ≠ "" → r.ShortCode = c) ∧
        d'.urls = d.urls ++ [r]) ∧
    (∀ (ops : List Op) (d : Database),
      runOps Database.empty ops = some d → d.codes.Nodup) := by
  constructor
  · intro fuel d d' w t c r h
    obtain ⟨code, hch, hnot, hr, hd⟩ := ShortenURL_ok fuel d d' w t c r h
    have hrc : r.ShortCode = code := by rw [hr]
    refine ⟨by rw [hrc]; exact hnot, ?_, by rw [hd]⟩
    intro hc
    rw [hrc]
    exact (chooseCode_ok fuel d w c code hch).2 hc
  · intro ops d h
    exact runOps_nodup ops Database.empty d h (by simp [Database.empty, Database.codes])

theorem stored_codes_unique_witness :
    (exampleRow.ShortCode ∉ Database.empty.codes ∧ (("" : String) ≠ "" → exampleRow.ShortCode = "") ∧
      [exampleRow] = Database.empty.urls ++ [exampleRow]) ∧
    (Database.codes { urls := [{ exampleRow with Clicks := 1 }], seq := 1 }).Nodup :=
  ⟨stored_codes_unique.1 1 Database.empty { urls := [exampleRow], seq := 1 } quietWorld
      "example.com" "" exampleRow rfl,
   stored_codes_unique.2 [Op.shorten 1 quietWorld "example.com" "", Op.click none "aaaaaa",
      Op.delete none "zzz"] { urls := [{ exampleRow with Clicks := 1 }], seq := 1 } rfl⟩

theorem stored_first (fuel : Nat) (d d' : Database) (w : World) (t c : String) (r : URL)
    (h : ShortenURL fuel d w t c = some (.ok r, d')) :
    r.ShortCode ∉ d.codes ∧ (c ≠ "" → r.ShortCode = c) ∧ d'.urls = d.urls ++ [r] := by
  obtain ⟨code, hch, hnot, hr, hd⟩ := ShortenURL_ok fuel d d' w t c r h
  have hrc : r.ShortCode = code := by rw [hr]
  refine ⟨by rw [hrc]; exact hnot, ?_, by rw [hd]⟩
  intro hc
  rw [hrc]
  exact (chooseCode_ok fuel d w c code hch).2 hc

/-! ## C4: generated codes of different calls -/

theorem apply_keeps_code (d d' : Database) (op : Op) (c : String)
    (h : op.apply d = some d') (hdel : op.deletes c = false) (hc : c ∈ d.codes) :
    c ∈ d'.codes := by
  cases op with
  | shorten fuel w t cc =>
    cases h1 : ShortenURL fuel d w t cc with
    | none => simp [Op.apply, h1] at h
    | some p =>
    obtain ⟨res, d2⟩ := p
    simp only [Op.apply, h1, Option.map_some', Option.some.injEq] at h
    subst h
    rcases ShortenURL_state fuel d d2 w t cc res h1 with h3 | ⟨row, -, h4⟩
    · rw [h3]; exact hc
    · subst h4
      simp only [Database.codes, List.map_append, List.mem_append]
      exact Or.inl hc
  | get f cc =>
    simp only [Op.apply, Option.some.injEq] at h
    subst h; exact hc
  | click f cc =>
    simp only [Op.apply, Option.some.injEq] at h
    subst h
    rw [RecordClick_codes]; exact hc
  | list f =>
    simp only [Op.apply, Option.some.injEq] at h
    subst h; exact hc
  | delete f cc =>
    simp only [Op.apply, Option.some.injEq] at h
    subst h
    rcases DeleteURL_codes d f cc with h1 | h1
    · rw [h1]; exact hc
    · rw [h1, List.mem_filter]
      refine ⟨hc, ?_⟩
      simp only [Op.deletes, beq_eq_false_iff_ne, ne_eq] at hdel
      have : ¬ c = cc := fun e => hdel e.symm
      simp [this]

theorem runOps_keeps_code (ops : List Op) (d d' : Database) (c : String)
    (h : runOps d ops = some d') (hdel : ∀ op ∈ ops, op.deletes c = false)
    (hc : c ∈ d.codes) : c ∈ d'.codes := by
  induction ops generalizing d with
  | nil =>
    simp only [runOps, Option.some.injEq] at h
    subst h; exact hc
  | cons op ops ih =>
    simp only [runOps, Option.bind_eq_some] at h
    obtain ⟨d1, h1, h2⟩ := h
    exact ih d1 h2 (fun o ho => hdel o (List.mem_cons_of_mem _ ho))
      (apply_keeps_code d d1 op c h1 (hdel op (List.mem_cons_self _ _)) hc)

/-- C4, as stated, fails: after `DeleteURL` of a generated code a later
`ShortenURL` with an empty custom code can return the same code again. -/
theorem generated_code_reused_after_delete :
    ¬ ∀ (fuel1 fuel2 : Nat) (d d1 d2 d3 : Database) (w1 w2 : World) (t1 t2 : String)
        (r1 r2 : URL) (mid : List Op),
        ShortenURL fuel1 d w1 t1 "" = some (.ok r1, d1) →
        runOps d1 mid = some d2 →
        ShortenURL fuel2 d2 w2 t2 "" = some (.ok r2, d3) →
        r1.ShortCode ≠ r2.ShortCode := by
  intro h
  exact h 1 1 Database.empty { urls := [exampleRow], seq := 1 } { urls := [], seq := 1 }
    { urls := [reusedRow], seq := 2 } quietWorld quietWorld "example.com" "example.org"
    exampleRow reusedRow [Op.delete none "aaaaaa"] rfl rfl rfl rfl

/-- C4, amended: two successful calls of `ShortenURL` with an empty custom
code return different codes whenever no `DeleteURL` of the first code is
among the calls made between them. -/
theorem generated_codes_distinct (fuel1 fuel2 : Nat) (d d1 d2 d3 : Database) (w1 w2 : World)
    (t1 t2 : String) (r1 r2 : URL) (mid : List Op)
    (h1 : ShortenURL fuel1 d w1 t1 "" = some (.ok r1, d1))
    (hmid : runOps d1 mid = some d2)
    (hdel : ∀ op ∈ mid, op.deletes r1.ShortCode = false)
    (h2 : ShortenURL fuel2 d2 w2 t2 "" = some (.ok r2, d3)) :
    r1.ShortCode ≠ r2.ShortCode := by
  obtain ⟨-, -, hu1⟩ := stored_first fuel1 d d1 w1 t1 "" r1 h1
  obtain ⟨hn2, -, -⟩ := stored_first fuel2 d2 d3 w2 t2 "" r2 h2
  have hmem : r1.ShortCode ∈ d1.codes := by
    simp [Database.codes, hu1]
  have := runOps_keeps_code mid d1 d2 r1.ShortCode hmid hdel hmem
  intro e
  rw [e] at this
  exact hn2 this

theorem generated_codes_distinct_witness : exampleRow.ShortCode ≠ retryRow.ShortCode :=
  generated_codes_distinct 1 2 Database.empty { urls := [exampleRow], seq := 1 }
    { urls := [{ exampleRow with Clicks := 1 }], seq := 1 }
    { urls := [{ exampleRow with Clicks := 1 }, retryRow], seq := 2 }
    quietWorld retryWorld "example.com" "example.org" exampleRow retryRow
    [Op.click none "aaaaaa", Op.delete none "other"] rfl rfl
    (by intro op hop; simp at hop; rcases hop with hop | hop <;> subst hop <;> rfl) rfl

/-! ## C5: shape of generated codes -/

theorem charset_length : charset.length = 62 := by decide

theorem pickSymbol_mem (b : Nat) : pickSymbol b ∈ charset.data := by
  unfold pickSymbol
  have hlen : charset.data.length = 62 := charset_length
  have hb : b % (charset.length % 256) < charset.data.length := by
    rw [charset_length, hlen]
    exact Nat.mod_lt _ (by decide)
  rw [List.getD_eq_getElem _ _ hb]
  exact List.getElem_mem _

theorem generateShortCode_ok (length : Nat) (src : Except String (Nat → Nat)) (code : String)
    (h : generateShortCode length src = .ok code) :
    code.length = length ∧ ∀ ch ∈ code.data, ch ∈ charset.data := by
  unfold generateShortCode randRead at h
  cases src with
  | error m => simp at h
  | ok f =>
    simp only [List.length_replicate, Except.ok.injEq] at h
    subst h
    constructor
    · simp [String.length]
    · intro ch hch
      simp only [List.mem_map] at hch
      obtain ⟨b, -, rfl⟩ := hch
      exact pickSymbol_mem b

theorem uniqueLoop_generated (d : Database) (w : World) (P : String → Prop)
    (hP : ∀ k code, generateShortCode 6 (w.rand k) = .ok code → P code)
    (fuel k : Nat) (sc code : String) (hsc : P sc)
    (h : uniqueLoop d w fuel k sc = some (.ok code)) : P code := by
  induction fuel generalizing k sc with
  | zero => simp [uniqueLoop] at h
  | succ n ih =>
    unfold uniqueLoop at h
    cases hl : GetURLByShortCode d (w.lookupFault k) sc with
    | error e => simp [hl] at h
    | ok o =>
      cases o with
      | none =>
        simp [hl] at h
        subst h
        exact hsc
      | some u =>
        simp only [hl] at h
        cases hg : generateShortCode 6 (w.rand (k + 1)) with
        | error e => simp [hg] at h
        | ok sc' =>
          simp only [hg] at h
          exact ih _ _ (hP _ _ hg) h

theorem chooseCode_generated (fuel : Nat) (d : Database) (w : World) (code : String)
    (h : chooseCode fuel d w "" = some (.ok code)) :
    code.length = 6 ∧ ∀ ch ∈ code.data, ch ∈ charset.data := by
  unfold chooseCode at h
  simp only [ne_eq, not_true_eq_false, if_false] at h
  cases hg : generateShortCode 6 (w.rand 0) with
  | error e => simp [hg] at h
  | ok sc =>
    simp only [hg] at h
    exact uniqueLoop_generated d w (fun s => s.length = 6 ∧ ∀ ch ∈ s.data, ch ∈ charset.data)
      (fun k c hc => generateShortCode_ok 6 _ c hc) fuel 0 sc code
      (generateShortCode_ok 6 _ sc hg) h

/-- C5: for every length `n` and every supply of random bytes,
`generateShortCode n` returns a string of exactly `n` characters, each one
in `charset`, which holds the 62 alphanumeric symbols; the index
`b % byte(len(charset))` is always within `charset`. Hence every successful
`ShortenURL` with an empty custom code returns a `ShortCode` of length 6
over that alphabet. -/
theorem generated_code_shape :
    (∀ (n : Nat) (f : Nat → Nat), ∃ code, generateShortCode n (.ok f) = .ok code ∧
      code.length = n ∧ ∀ ch ∈ code.data, ch ∈ charset.data) ∧
    (charset.length = 62 ∧ charset.data.Nodup ∧
      ∀ ch ∈ charset.data, ch.isAlphanum = true) ∧
    (∀ b : Nat, b % (charset.length % 256) < charset.length) ∧
    (∀ (fuel : Nat) (d d' : Database) (w : World) (t : String) (r : URL),
      ShortenURL fuel d w t "" = some (.ok r, d') →
        r.ShortCode.length = 6 ∧ ∀ ch ∈ r.ShortCode.data, ch ∈ charset.data) := by
  refine ⟨?_, ⟨charset_length, by decide, by decide⟩, ?_, ?_⟩
  · intro n f
    have h : generateShortCode n (.ok f) =
        .ok (String.mk (((List.range n).map (fun i => f i % 256)).map pickSymbol)) := by
      simp [generateShortCode, randRead]
    exact ⟨_, h, generateShortCode_ok n _ _ h⟩
  · intro b
    rw [charset_length]
    exact Nat.mod_lt _ (by decide)
  · intro fuel d d' w t r h
    obtain ⟨code, hch, -, hr, -⟩ := ShortenURL_ok fuel d d' w t "" r h
    have hrc : r.ShortCode = code := by rw [hr]
    rw [hrc]
    exact chooseCode_generated fuel d w code hch

theorem generated_code_shape_witness :
    exampleRow.ShortCode.length = 6 ∧ ∀ ch ∈ exampleRow.ShortCode.data, ch ∈ charset.data :=
  generated_code_shape.2.2.2 1 Database.empty { urls := [exampleRow], seq := 1 } quietWorld
    "example.com" exampleRow rfl

/-! ## C6: how often each symbol is picked -/

/-- C6, as stated, fails: `a` is picked for 5 of the 256 byte values and
`i` for 4 of them. -/
theorem symbols_not_equally_likely :
    ¬ ∀ c1 ∈ charset.data, ∀ c2 ∈ charset.data, selectCount c1 = selectCount c2 := by
  intro h
  have := h 'a' (by decide) 'i' (by decide)
  revert this
  decide

/-- C6, amended: of the 256 byte values, each of the first 8 symbols of
`charset` (`a` to `h`) is picked for 5 and each of the other 54 symbols
for 4. -/
theorem symbol_select_counts :
    charset.data.map selectCount = List.replicate 8 5 ++ List.replicate 54 4 := by
  decide

/-! ## C7: the retry loop -/

theorem lookup_absent (d : Database) (c : String) (h : c ∉ d.codes) :
    GetURLByShortCode d none c = .ok none :=
  (lookup_none_iff d none c).2 ⟨rfl, h⟩

theorem uniqueLoop_first (d : Database) (w : World) (cand : Nat → String) (n : Nat)
    (hrand : ∀ k, generateShortCode 6 (w.rand k) = .ok (cand k))
    (hlook : ∀ k, w.lookupFault k = none)
    (hfirst : cand n ∉ d.codes) (hskip : ∀ k < n, cand k ∈ d.codes)
    (fuel k : Nat) (hk : k ≤ n) (hfuel : n - k < fuel) :
    uniqueLoop d w fuel k (cand k) = some (.ok (cand n)) := by
  induction fuel generalizing k with
  | zero => omega
  | succ m ih =>
    unfold uniqueLoop
    rw [hlook k]
    by_cases hkn : k = n
    · subst hkn
      rw [lookup_absent d _ hfirst]
    · have hlt : k < n := by omega
      obtain ⟨u, hu⟩ := lookup_of_mem d (cand k) (hskip k hlt)
      rw [hu]
      simp only [hrand (k + 1)]
      exact ih (k + 1) (by omega) (by omega)

theorem uniqueLoop_no_error (d : Database) (w : World) (cand : Nat → String)
    (hrand : ∀ k, generateShortCode 6 (w.rand k) = .ok (cand k))
    (hlook : ∀ k, w.lookupFault k = none)
    (fuel k : Nat) (sc : String) (err : GoError) :
    uniqueLoop d w fuel k sc ≠ some (.error err) := by
  induction fuel generalizing k sc with
  | zero => simp [uniqueLoop]
  | succ m ih =>
    unfold uniqueLoop
    rw [hlook k]
    cases hl : GetURLByShortCode d none sc with
    | error e =>
      exfalso
      unfold GetURLByShortCode queryRowScan at hl
      cases hf : d.urls.find? (fun r => r.ShortCode == sc) <;> simp [hf] at hl
    | ok o =>
      cases o with
      | none => simp
      | some u =>
        simp only [hrand (k + 1)]
        exact ih _ _

/-- C7: let the random source deliver the candidate codes `cand 0, cand 1, ...`
and let every lookup succeed. Then the choice of the code in
`ShortenURL t ""` never ends in an error, so the only error `ShortenURL` can
return is a failed save; and when `cand n` is the first candidate that is
not stored, the loop (given more than `n` iterations) skips the candidates
before it and the record is saved under `cand n`, a code that was not in the
table before the call. -/
theorem shorten_retries_on_collision (d : Database) (w : World) (t : String)
    (cand : Nat → String)
    (hrand : ∀ k, generateShortCode 6 (w.rand k) = .ok (cand k))
    (hlook : ∀ k, w.lookupFault k = none) :
    (∀ fuel err, chooseCode fuel d w "" ≠ some (.error err)) ∧
    (∀ fuel err d', ShortenURL fuel d w t "" = some (.error err, d') →
      ∃ e, err = .wrap "failed to save URL: " e) ∧
    (∀ n fuel, cand n ∉ d.codes → (∀ k < n, cand k ∈ d.codes) → n < fuel →
      chooseCode fuel d w "" = some (.ok (cand n)) ∧
      (w.saveFault = none → w.idFault = none →
        ∃ r d', ShortenURL fuel d w t "" = some (.ok r, d') ∧
          r.ShortCode = cand n ∧ r.ShortCode ∉ d.codes ∧ d'.urls = d.urls ++ [r])) := by
  have hch : ∀ fuel, chooseCode fuel d w "" = uniqueLoop d w fuel 0 (cand 0) := by
    intro fuel
    unfold chooseCode
    simp only [ne_eq, not_true_eq_false, if_false, hrand 0]
  have hne : ∀ fuel err, chooseCode fuel d w "" ≠ some (.error err) := by
    intro fuel err
    rw [hch]
    exact uniqueLoop_no_error d w cand hrand hlook fuel 0 _ err
  refine ⟨hne, ?_, ?_⟩
  · intro fuel err d' h
    unfold ShortenURL at h
    cases hc : chooseCode fuel d w "" with
    | none => simp [hc] at h
    | some cr =>
      cases cr with
      | error e => exact absurd hc (hne fuel e)
      | ok code =>
        simp only [hc] at h
        generalize SaveURL d w.saveFault w.idFault _ = sv at h
        obtain ⟨res, d2⟩ := sv
        cases res with
        | error e =>
          simp at h
          exact ⟨e, h.1.symm⟩
        | ok r2 => simp at h
  · intro n fuel hfirst hskip hfuel
    have hc : chooseCode fuel d w "" = some (.ok (cand n)) := by
      rw [hch]
      exact uniqueLoop_first d w cand n hrand hlook hfirst hskip fuel 0 (by omega) (by omega)
    refine ⟨hc, ?_⟩
    intro hs hi
    unfold ShortenURL
    simp only [hc, hs, hi]
    rw [SaveURL_absent d _ (by simpa [NewURL] using hfirst)]
    refine ⟨_, _, rfl, ?_, ?_, ?_⟩
    · simp [NewURL]
    · simpa [NewURL] using hfirst
    · simp [NewURL]

theorem shorten_retries_on_collision_witness :
    chooseCode 2 { urls := [exampleRow], seq := 1 } retryWorld "" =
        some (.ok (retryCandidates 1)) ∧
      (retryWorld.saveFault = none → retryWorld.idFault = none →
        ∃ r d', ShortenURL 2 { urls := [exampleRow], seq := 1 } retryWorld "example.org" "" =
            some (.ok r, d') ∧
          r.ShortCode = retryCandidates 1 ∧
          r.ShortCode ∉ Database.codes { urls := [exampleRow], seq := 1 } ∧
          d'.urls = [exampleRow] ++ [r]) :=
  (shorten_retries_on_collision { urls := [exampleRow], seq := 1 } retryWorld "example.org"
    retryCandidates (fun _ => rfl) (fun _ => rfl)).2.2 1 2 (by decide)
    (by intro k hk; obtain rfl : k = 0 := by omega
        decide) (by decide)

/-! ## C8: custom codes are used as given -/

/-- C8: for a non-empty custom code `c` that no stored record has, whatever
its characters and length, `ShortenURL t c` succeeds when the lookup and the
insert are carried out by the store, and the returned `ShortCode` is `c`; any
successful call with a non-empty custom code returns that code unchanged. -/
theorem shorten_custom_code_verbatim (fuel : Nat) (d : Database) (w : World) (t c : String)
    (hc : c ≠ "") (habs : c ∉ d.codes) :
    (w.lookupFault 0 = none → w.saveFault = none → w.idFault = none →
      ∃ r d', ShortenURL fuel d w t c = some (.ok r, d') ∧ r.ShortCode = c) ∧
    (∀ r d', ShortenURL fuel d w t c = some (.ok r, d') → r.ShortCode = c) := by
  constructor
  · intro hl hs hi
    unfold ShortenURL chooseCode
    simp only [ne_eq, hc, not_false_eq_true, if_true, hl, lookup_absent d c habs, hs, hi]
    rw [SaveURL_absent d _ (by simpa [NewURL] using habs)]
    exact ⟨_, _, rfl, by simp [NewURL]⟩
  · intro r d' h
    exact (stored_first fuel d d' w t c r h).2.1 hc

theorem shorten_custom_code_verbatim_witness :
    (quietWorld.lookupFault 0 = none → quietWorld.saveFault = none → quietWorld.idFault = none →
      ∃ r d', ShortenURL 0 Database.empty quietWorld "http://example.com/a?b=c" "x y/Z!" =
        some (.ok r, d') ∧ r.ShortCode = "x y/Z!") ∧
    (∀ r d', ShortenURL 0 Database.empty quietWorld "http://example.com/a?b=c" "x y/Z!" =
        some (.ok r, d') → r.ShortCode = "x y/Z!") :=
  shorten_custom_code_verbatim 0 Database.empty quietWorld "http://example.com/a?b=c" "x y/Z!"
    (by decide) (by decide)

/-! ## C9: the returned record is the stored one -/

theorem lookup_appended (rows : List URL) (s : Int) (r : URL)
    (h : r.ShortCode ∉ rows.map URL.ShortCode) :
    GetURLByShortCode { urls := rows ++ [r], seq := s } none r.ShortCode = .ok (some r) := by
  unfold GetURLByShortCode queryRowScan
  simp only [List.find?_append, (find_code_none rows r.ShortCode).2 h]
  simp [List.find?]

/-- C9: a record `r` returned by a successful `ShortenURL` has `Clicks = 0`
and carries the rowid that the insert assigned (the next AUTOINCREMENT
value, also recorded as the table's counter); a `GetURL r.ShortCode` right
after it returns a record equal to `r` in every field. -/
theorem shorten_then_get (fuel : Nat) (d d' : Database) (w : World) (t c : String) (r : URL)
    (h : ShortenURL fuel d w t c = some (.ok r, d')) :
    r.Clicks = 0 ∧ r.ID = nextRowid d ∧ d'.seq = r.ID ∧ r.CreatedAt = w.now ∧
    GetURL d' none r.ShortCode = .ok (some r) := by
  obtain ⟨code, -, hnot, hr, hd⟩ := ShortenURL_ok fuel d d' w t c r h
  have hrc : r.ShortCode = code := by rw [hr]
  refine ⟨by rw [hr], by rw [hr], by rw [hd, hr], by rw [hr], ?_⟩
  unfold GetURL
  rw [hd, lookup_appended d.urls _ r (by rw [hrc]; exact hnot)]

theorem shorten_then_get_witness :
    customRow.Clicks = 0 ∧ customRow.ID = nextRowid Database.empty ∧
    (1 : Int) = customRow.ID ∧ customRow.CreatedAt = quietWorld.now ∧
    GetURL { urls := [customRow], seq := 1 } none customRow.ShortCode = .ok (some customRow) :=
  shorten_then_get 0 Database.empty { urls := [customRow], seq := 1 } quietWorld
    "http://example.com/a?b=c" "x y/Z!" customRow rfl

/-! ## C10: resolving a code -/

theorem GetURL_eq (d : Database) (c : String) :
    GetURL d none c = .ok (d.urls.find? (fun r => r.ShortCode == c)) := by
  unfold GetURL GetURLByShortCode queryRowScan
  cases d.urls.find? (fun r => r.ShortCode == c) <;> rfl

/-- C10: `GetURL c` returns a stored record whose `ShortCode` is exactly `c`
when there is one (the only such record when the stored codes are pairwise
different), and otherwise the not-found result `(nil, nil)`; when the lookup
itself fails it returns an error, which is a different result. -/
theorem get_url_lookup (d : Database) (c : String) :
    (∀ u, GetURL d none c = .ok (some u) → u ∈ d.urls ∧ u.ShortCode = c) ∧
    ((∃ u ∈ d.urls, u.ShortCode = c) → ∃ u, GetURL d none c = .ok (some u)) ∧
    (d.codes.Nodup → ∀ u ∈ d.urls, u.ShortCode = c → GetURL d none c = .ok (some u)) ∧
    ((∀ u ∈ d.urls, u.ShortCode ≠ c) → GetURL d none c = .ok none) ∧
    (∀ m, ∃ err, GetURL d (some m) c = .error err ∧
      GetURL d (some m) c ≠ .ok none) := by
  have hsome : ∀ u, GetURL d none c = .ok (some u) → u ∈ d.urls ∧ u.ShortCode = c := by
    intro u hu
    rw [GetURL_eq] at hu
    simp only [Except.ok.injEq] at hu
    exact find_code_some d.urls c u hu
  have hex : (∃ u ∈ d.urls, u.ShortCode = c) → ∃ u, GetURL d none c = .ok (some u) := by
    rintro ⟨u, hu, huc⟩
    rw [GetURL_eq]
    cases hf : d.urls.find? (fun r => r.ShortCode == c) with
    | none =>
      exact absurd (List.mem_map_of_mem URL.ShortCode hu)
        (by rw [huc]; exact (find_code_none d.urls c).1 hf)
    | some v => exact ⟨v, rfl⟩
  refine ⟨hsome, hex, ?_, ?_, ?_⟩
  · intro hn u hu huc
    obtain ⟨v, hv⟩ := hex ⟨u, hu, huc⟩
    obtain ⟨hv1, hv2⟩ := hsome v hv
    have : v = u := List.inj_on_of_nodup_map hn hv1 hu (by rw [hv2, huc])
    rw [hv, this]
  · intro hno
    rw [GetURL_eq]
    have : c ∉ d.urls.map URL.ShortCode := by
      simp only [List.mem_map, not_exists, not_and]
      exact fun u hu => hno u hu
    rw [(find_code_none d.urls c).2 this]
  · intro m
    exact ⟨_, rfl, by simp [GetURL, GetURLByShortCode, queryRowScan]⟩

theorem get_url_lookup_witness :
    GetURL { urls := [exampleRow, mixedCaseRow], seq := 4 } none "Abc" = .ok (some mixedCaseRow) ∧
    GetURL { urls := [exampleRow, mixedCaseRow], seq := 4 } none "abc" = .ok none :=
  ⟨(get_url_lookup { urls := [exampleRow, mixedCaseRow], seq := 4 } "Abc").2.2.1 (by decide)
      mixedCaseRow (by decide) rfl,
   (get_url_lookup { urls := [exampleRow, mixedCaseRow], seq := 4 } "abc").2.2.2.1 (by decide)⟩

theorem shorten_get_back (fuel : Nat) (d d' : Database) (w : World) (t c : String) (r : URL)
    (h : ShortenURL fuel d w t c = some (.ok r, d')) :
    r.Clicks = 0 ∧ r.ID = nextRowid d ∧ d'.seq = r.ID ∧ r.CreatedAt = w.now ∧
    GetURL d' none r.ShortCode = .ok (some r) := by
  obtain ⟨code, -, hnot, hr, hd⟩ := ShortenURL_ok fuel d d' w t c r h
  have hrc : r.ShortCode = code := by rw [hr]
  refine ⟨by rw [hr], by rw [hr], by rw [hd, hr], by rw [hr], ?_⟩
  unfold GetURL
  rw [hd, lookup_appended d.urls _ r (by rw [hrc]; exact hnot)]

/-! ## C11: a click on a code that is not stored -/

theorem RecordClick_absent (d : Database) (c : String) (h : c ∉ d.codes) :
    RecordClick d none c = (none, d) := by
  unfold RecordClick IncrementClicks
  have hmap : d.urls.map (fun r =>
      if r.ShortCode == c then { r with Clicks := sqlPlusOne r.Clicks } else r) = d.urls := by
    conv_rhs => rw [← List.map_id d.urls]
    apply List.map_congr_left
    intro r hr
    have : r.ShortCode ≠ c := fun e => h (by rw [← e]; exact List.mem_map_of_mem URL.ShortCode hr)
    simp [this]
  simp only [hmap]

/-- C11 at its failing input: with the record of `TestRecordClick` stored,
`RecordClick "nonexistent"` returns `nil` (no error of any kind) and leaves
the table as it is; the same on the empty table. -/
theorem record_click_absent_returns_nil :
    RecordClick { urls := [testRow], seq := 1 } none "nonexistent" =
      (none, { urls := [testRow], seq := 1 }) ∧
    RecordClick Database.empty none "nonexistent" = (none, Database.empty) :=
  ⟨RecordClick_absent _ _ (by decide), RecordClick_absent _ _ (by decide)⟩

/-! ## C12: counting clicks -/

theorem RecordClick_ok_iff (d : Database) (f : Option String) (c : String) :
    (RecordClick d f c).1 = none ↔ f = none := by
  unfold RecordClick IncrementClicks
  cases f <;> simp

theorem sqlPlusOne_cases (n : Int) : sqlPlusOne n = n + 1 ∨ sqlPlusOne n = n := by
  unfold sqlPlusOne
  cases fitsInt64 n <;> simp

theorem fitsInt64_iff (n : Int) :
    fitsInt64 n = true ↔ -9223372036854775808 ≤ n ∧ n < 9223372036854775808 := by
  simp [fitsInt64]

theorem sqlPlusOne_fits (n : Int) (h : fitsInt64 n = true) : sqlPlusOne n = n + 1 := by
  simp [sqlPlusOne, h]

theorem find_after_click (d : Database) (c c' : String) :
    (RecordClick d none c).2.urls.find? (fun r => r.ShortCode == c') =
      (d.urls.find? (fun r => r.ShortCode == c')).map (fun r =>
        if r.ShortCode == c then { r with Clicks := sqlPlusOne r.Clicks } else r) := by
  have hfun : ((fun r : URL => r.ShortCode == c') ∘ fun r : URL =>
      if r.ShortCode == c then { r with Clicks := sqlPlusOne r.Clicks } else r) =
      fun r : URL => r.ShortCode == c' := by
    funext r
    by_cases h : r.ShortCode = c <;> simp [h]
  simp only [RecordClick, IncrementClicks, List.find?_map, hfun]

/-- A lookup that fails only where the stored row forces it returns the
record exactly when the row is found and its `Clicks` is a 64-bit integer. -/
theorem GetURL_scanFault (d : Database) (c : String) (u : URL) :
    GetURL d (scanFault d c) c = .ok (some u) ↔
      d.urls.find? (fun r => r.ShortCode == c) = some u ∧ fitsInt64 u.Clicks = true := by
  unfold scanFault
  cases hf : d.urls.find? (fun r => r.ShortCode == c) with
  | none => simp [GetURL_eq, hf]
  | some v =>
    cases hv : fitsInt64 v.Clicks with
    | true =>
      simp only [hv, if_true, GetURL_eq, hf, Except.ok.injEq, Option.some.injEq]
      constructor
      · intro e; subst e; exact ⟨rfl, hv⟩
      · intro e; exact e.1
    | false =>
      simp only [hv, Bool.false_eq_true, if_false, Option.some.injEq]
      constructor
      · intro e
        simp [GetURL, GetURLByShortCode, queryRowScan] at e
      · rintro ⟨e, h2⟩
        subst e
        rw [hv] at h2
        cases h2

theorem click_raises_by_one (d : Database) (c : String) (u : URL)
    (h : GetURL d (scanFault d c) c = .ok (some u)) (hb : u.Clicks < 9223372036854775807) :
    GetURL (RecordClick d none c).2 (scanFault (RecordClick d none c).2 c) c =
      .ok (some { u with Clicks := u.Clicks + 1 }) := by
  obtain ⟨hf, hfit⟩ := (GetURL_scanFault d c u).1 h
  have hc := (find_code_some d.urls c u hf).2
  rw [GetURL_scanFault, find_after_click, hf]
  have hlow := ((fitsInt64_iff _).1 hfit).1
  refine ⟨by simp [hc, sqlPlusOne_fits _ hfit], ?_⟩
  rw [fitsInt64_iff]
  constructor <;> simp only <;> omega

theorem stored_after_clicks (d : Database) (c : String) (u : URL)
    (h : d.urls.find? (fun r => r.ShortCode == c) = some u) (hlow : 0 ≤ u.Clicks)
    (n : Nat) (hn : u.Clicks + n ≤ 9223372036854775808) :
    (recordClicks d c n).urls.find? (fun r => r.ShortCode == c) =
      some { u with Clicks := u.Clicks + n } := by
  induction n with
  | zero => simpa [recordClicks] using h
  | succ k ih =>
    have hk : u.Clicks + k ≤ 9223372036854775808 := by push_cast at hn; omega
    have hc := (find_code_some d.urls c u h).2
    have hfit : fitsInt64 (u.Clicks + k) = true := by
      rw [fitsInt64_iff]
      push_cast at hn
      constructor <;> omega
    simp only [recordClicks]
    rw [find_after_click, ih hk]
    simp only [Option.map_some', hc, beq_self_eq_true, if_true, sqlPlusOne_fits _ hfit]
    simp only [Nat.cast_add, Nat.cast_one, add_assoc]

/-- C12, as stated, fails: (1) at `Clicks = 9223372036854775807` a
`RecordClick` that returns `nil` leaves a value that is no `int64`, and the
`GetURL` after it fails instead of reporting one more click; (2) so for the
link just created under `test`, `GetURL` after `N = 9223372036854775808`
clicks does not give a record with `Clicks = N`. -/
theorem click_count_leaves_int64 :
    (¬ ∀ (d : Database) (c : String) (u : URL),
        GetURL d (scanFault d c) c = .ok (some u) →
          GetURL (RecordClick d none c).2 (scanFault (RecordClick d none c).2 c) c =
            .ok (some { u with Clicks := u.Clicks + 1 })) ∧
    (¬ ∀ (fuel : Nat) (d d' : Database) (w : World) (t c : String) (r : URL) (N : Nat),
        ShortenURL fuel d w t c = some (.ok r, d') →
          GetURL (recordClicks d' r.ShortCode N) (scanFault (recordClicks d' r.ShortCode N)
            r.ShortCode) r.ShortCode = .ok (some { r with Clicks := N })) := by
  constructor
  · intro h
    have h1 := h { urls := [{ testRow with Clicks := 9223372036854775807 }], seq := 1 } "test"
      { testRow with Clicks := 9223372036854775807 } rfl
    have h2 := ((GetURL_scanFault _ _ _).1 h1).2
    revert h2
    decide
  · intro h
    have h1 := h 0 Database.empty { urls := [testRow], seq := 1 } quietWorld
      "https://example.com" "test" testRow 9223372036854775808 rfl
    have h2 := ((GetURL_scanFault _ _ _).1 h1).2
    revert h2
    decide

/-- C12, amended: `RecordClick` returns `nil` exactly when the store carries
out the `UPDATE`; each such call on a link whose `Clicks` is below
`9223372036854775807` raises the `Clicks` that `GetURL c` reports by exactly 1;
and for a link just created by `ShortenURL`, `N` such calls with `N` at most
`9223372036854775807` followed by `GetURL` give a record with `Clicks = N` and
all other fields as created. -/
theorem record_click_counts :
    (∀ (d : Database) (f : Option String) (c : String),
      (RecordClick d f c).1 = none ↔ f = none) ∧
    (∀ (d : Database) (c : String) (u : URL), GetURL d (scanFault d c) c = .ok (some u) →
      u.Clicks < 9223372036854775807 →
      GetURL (RecordClick d none c).2 (scanFault (RecordClick d none c).2 c) c =
        .ok (some { u with Clicks := u.Clicks + 1 })) ∧
    (∀ (fuel : Nat) (d d' : Database) (w : World) (t c : String) (r : URL) (N : Nat),
      ShortenURL fuel d w t c = some (.ok r, d') → N ≤ 9223372036854775807 →
        GetURL (recordClicks d' r.ShortCode N) (scanFault (recordClicks d' r.ShortCode N)
          r.ShortCode) r.ShortCode = .ok (some { r with Clicks := N })) := by
  refine ⟨RecordClick_ok_iff, click_raises_by_one, ?_⟩
  intro fuel d d' w t c r N h hN
  obtain ⟨h0, -, -, -, hget⟩ := shorten_get_back fuel d d' w t c r h
  rw [GetURL_eq] at hget
  simp only [Except.ok.injEq] at hget
  rw [GetURL_scanFault, stored_after_clicks d' r.ShortCode r hget (by omega) N (by omega), h0]
  refine ⟨by simp, ?_⟩
  rw [fitsInt64_iff]
  constructor <;> simp only <;> omega

theorem record_click_counts_witness :
    GetURL (RecordClick { urls := [testRow], seq := 1 } none "test").2
        (scanFault (RecordClick { urls := [testRow], seq := 1 } none "test").2 "test") "test" =
        .ok (some { testRow with Clicks := testRow.Clicks + 1 }) ∧
    GetURL (recordClicks { urls := [testRow], seq := 1 } testRow.ShortCode 2)
        (scanFault (recordClicks { urls := [testRow], seq := 1 } testRow.ShortCode 2)
          testRow.ShortCode) testRow.ShortCode =
        .ok (some { testRow with Clicks := (2 : Nat) }) :=
  ⟨record_click_counts.2.1 { urls := [testRow], seq := 1 } "test" testRow rfl (by decide),
   record_click_counts.2.2 0 Database.empty { urls := [testRow], seq := 1 } quietWorld
     "https://example.com" "test" testRow 2 rfl (by decide)⟩

/-! ## C13: deleting twice -/

theorem DeleteURL_absent (d : Database) (c : String) (h : c ∉ d.codes) :
    DeleteURL d none c = (none, d) := by
  unfold DeleteURL Database.DeleteURL
  have hf : d.urls.filter (fun r => !(r.ShortCode == c)) = d.urls := by
    rw [List.filter_eq_self]
    intro r hr
    have : r.ShortCode ≠ c := fun e => h (by rw [← e]; exact List.mem_map_of_mem URL.ShortCode hr)
    simp [this]
  simp only [hf]

theorem DeleteURL_removes (d : Database) (c : String) : c ∉ (DeleteURL d none c).2.codes := by
  simp [DeleteURL, Database.DeleteURL, Database.codes, List.mem_filter]

/-- C13: `DeleteURL c` on a table without a record for `c` returns no error
and leaves the table as it is; hence `DeleteURL c` followed by `DeleteURL c`
returns no error either time and ends in the table that a single
`DeleteURL c` gives. -/
theorem delete_idempotent (d : Database) (c : String) :
    (c ∉ d.codes → DeleteURL d none c = (none, d)) ∧
    (DeleteURL d none c).1 = none ∧
    DeleteURL (DeleteURL d none c).2 none c = (none, (DeleteURL d none c).2) :=
  ⟨DeleteURL_absent d c, rfl, DeleteURL_absent _ c (DeleteURL_removes d c)⟩

theorem delete_idempotent_witness :
    DeleteURL { urls := [testRow], seq := 1 } none "nonexistent" =
      (none, { urls := [testRow], seq := 1 }) ∧
    (DeleteURL { urls := [testRow], seq := 1 } none "test").1 = none ∧
    DeleteURL (DeleteURL { urls := [testRow], seq := 1 } none "test").2 none "test" =
      (none, (DeleteURL { urls := [testRow], seq := 1 } none "test").2) :=
  ⟨(delete_idempotent { urls := [testRow], seq := 1 } "nonexistent").1 (by decide),
   (delete_idempotent { urls := [testRow], seq := 1 } "test").2⟩

/-! ## C14: a deleted link is gone -/

theorem scanRows_sublist (scan : Nat → Bool) (k : Nat) (rows : List URL) :
    (scanRows scan k rows).Sublist rows := by
  induction rows generalizing k with
  | nil => simp [scanRows]
  | cons r rs ih =>
    unfold scanRows
    by_cases h : scan k = true
    · simp only [h, if_true]
      exact (ih (k + 1)).cons r
    · simp only [h]
      exact (ih (k + 1)).cons₂ r

theorem scanRows_calm (k : Nat) (rows : List URL) :
    scanRows (fun _ => false) k rows = rows := by
  induction rows generalizing k with
  | nil => rfl
  | cons r rs ih => simp [scanRows, ih]

theorem ListURLs_ok (d : Database) (f : ListFaults) (l : List URL)
    (h : ListURLs d f = .ok l) :
    l = scanRows f.scan 0 (d.urls.insertionSort (fun a b => Time.textLe b.CreatedAt a.CreatedAt)) := by
  unfold ListURLs Database.ListURLs at h
  cases hq : f.query with
  | some m => simp [hq] at h
  | none =>
    cases hi : f.iter with
    | some m => simp [hq, hi] at h
    | none =>
      simp [hq, hi] at h
      exact h.symm

theorem ListURLs_calm (d : Database) :
    ListURLs d ListFaults.calm =
      .ok (d.urls.insertionSort (fun a b => Time.textLe b.CreatedAt a.CreatedAt)) := by
  simp [ListURLs, Database.ListURLs, ListFaults.calm, scanRows_calm]

theorem ListURLs_mem (d : Database) (f : ListFaults) (l : List URL)
    (h : ListURLs d f = .ok l) (u : URL) (hu : u ∈ l) : u ∈ d.urls := by
  rw [ListURLs_ok d f l h] at hu
  exact (List.mem_insertionSort _).1 ((scanRows_sublist _ _ _).subset hu)

theorem DeleteURL_ok (d d' : Database) (f : Option String) (c : String)
    (h : DeleteURL d f c = (none, d')) :
    f = none ∧ d' = { d with urls := d.urls.filter (fun r => !(r.ShortCode == c)) } := by
  unfold DeleteURL Database.DeleteURL at h
  cases f with
  | some m => simp at h
  | none =>
    simp only [Prod.mk.injEq, true_and] at h
    exact ⟨rfl, h.symm⟩

theorem find_filter_other (rows : List URL) (c c' : String) (h : c' ≠ c) :
    (rows.filter (fun r => !(r.ShortCode == c))).find? (fun r => r.ShortCode == c') =
      rows.find? (fun r => r.ShortCode == c') := by
  induction rows with
  | nil => rfl
  | cons r rs ih =>
    by_cases hr : r.ShortCode = c
    · have hb : (r.ShortCode == c) = true := by simp [hr]
      have hb' : (r.ShortCode == c') = false := by
        simp only [beq_eq_false_iff_ne, ne_eq]
        exact fun e => h (by rw [← e, hr])
      simp only [List.filter_cons, List.find?_cons, hb, hb', Bool.not_true]
      exact ih
    · have hb : (r.ShortCode == c) = false := by simp [hr]
      simp only [List.filter_cons, List.find?_cons, hb, Bool.not_false, if_true]
      cases r.ShortCode == c' with
      | true => rfl
      | false => exact ih

/-- C14: after a `DeleteURL c` that returned no error, `GetURL c` gives the
not-found result and no list returned by `ListURLs` holds a record with code
`c`, while every other code resolves to the same record as before and
`ListURLs` returns exactly the records it returned before whose code is not
`c`. -/
theorem deleted_link_unreachable (d d' : Database) (f : Option String) (c : String)
    (h : DeleteURL d f c = (none, d')) :
    GetURL d' none c = .ok none ∧
    (∀ lf l, ListURLs d' lf = .ok l → ∀ u ∈ l, u.ShortCode ≠ c) ∧
    (∀ c', c' ≠ c → GetURL d' none c' = GetURL d none c') ∧
    (∀ l l', ListURLs d ListFaults.calm = .ok l → ListURLs d' ListFaults.calm = .ok l' →
      ∀ u, u ∈ l' ↔ (u ∈ l ∧ u.ShortCode ≠ c)) := by
  obtain ⟨-, hd⟩ := DeleteURL_ok d d' f c h
  have hmem : ∀ u, u ∈ d'.urls ↔ (u ∈ d.urls ∧ u.ShortCode ≠ c) := by
    intro u
    rw [hd]
    simp [List.mem_filter]
  refine ⟨?_, ?_, ?_, ?_⟩
  · rw [GetURL_eq, List.find?_eq_none.2]
    intro u hu
    simpa using ((hmem u).1 hu).2
  · intro lf l hl u hu
    exact ((hmem u).1 (ListURLs_mem d' lf l hl u hu)).2
  · intro c' hc'
    rw [GetURL_eq, GetURL_eq, hd]
    exact congrArg Except.ok (find_filter_other d.urls c c' hc')
  · intro l l' hl hl' u
    rw [ListURLs_calm] at hl hl'
    simp only [Except.ok.injEq] at hl hl'
    rw [← hl, ← hl', List.mem_insertionSort, List.mem_insertionSort]
    exact hmem u

theorem deleted_link_unreachable_witness :
    GetURL { urls := [mixedCaseRow], seq := 4 } none "aaaaaa" = .ok none ∧
    (∀ lf l, ListURLs { urls := [mixedCaseRow], seq := 4 } lf = .ok l →
      ∀ u ∈ l, u.ShortCode ≠ "aaaaaa") ∧
    (∀ c', c' ≠ "aaaaaa" → GetURL { urls := [mixedCaseRow], seq := 4 } none c' =
      GetURL { urls := [exampleRow, mixedCaseRow], seq := 4 } none c') ∧
    (∀ l l', ListURLs { urls := [exampleRow, mixedCaseRow], seq := 4 } ListFaults.calm = .ok l →
      ListURLs { urls := [mixedCaseRow], seq := 4 } ListFaults.calm = .ok l' →
      ∀ u, u ∈ l' ↔ (u ∈ l ∧ u.ShortCode ≠ "aaaaaa")) :=
  deleted_link_unreachable { urls := [exampleRow, mixedCaseRow], seq := 4 }
    { urls := [mixedCaseRow], seq := 4 } none "aaaaaa" rfl

/-! ## C15: listing -/

theorem textLe_iff (a b : Time) :
    Time.textLe a b = true ↔
      a.wall < b.wall ∨ (a.wall = b.wall ∧ (a.zoneSign < b.zoneSign ∨
        (a.zoneSign = b.zoneSign ∧ a.offset.natAbs ≤ b.offset.natAbs))) := by
  simp [Time.textLe]

theorem textLe_total (a b : Time) : Time.textLe a b = true ∨ Time.textLe b a = true := by
  rw [textLe_iff, textLe_iff]
  generalize a.wall = wa, b.wall = wb, a.zoneSign = sa, b.zoneSign = sb,
    a.offset.natAbs = ma, b.offset.natAbs = mb
  omega

theorem textLe_trans (a b c : Time) (h1 : Time.textLe a b = true)
    (h2 : Time.textLe b c = true) : Time.textLe a c = true := by
  rw [textLe_iff] at h1 h2 ⊢
  generalize a.wall = wa, b.wall = wb, c.wall = wc, a.zoneSign = sa, b.zoneSign = sb,
    c.zoneSign = sc, a.offset.natAbs = ma, b.offset.natAbs = mb, c.offset.natAbs = mc at h1 h2 ⊢
  omega

/-- With equal offsets the order of the stored texts is the order of the
instants. -/
theorem textLe_same_offset (a b : Time) (h : a.offset = b.offset)
    (hle : Time.textLe a b = true) : a.instant ≤ b.instant := by
  rw [textLe_iff] at hle
  unfold Time.wall at hle
  rw [h] at hle
  omega

theorem sorted_rows (rows : List URL) :
    (rows.insertionSort (fun a b => Time.textLe b.CreatedAt a.CreatedAt)).Pairwise
      (fun a b => Time.textLe b.CreatedAt a.CreatedAt) := by
  haveI : IsTotal URL (fun a b => Time.textLe b.CreatedAt a.CreatedAt) :=
    ⟨fun a b => textLe_total _ _⟩
  haveI : IsTrans URL (fun a b => Time.textLe b.CreatedAt a.CreatedAt) :=
    ⟨fun _ _ _ h1 h2 => textLe_trans _ _ _ h2 h1⟩
  exact List.sorted_insertionSort _ rows

theorem sorted_rows_instant (l rows : List URL) (hmem : ∀ u ∈ l, u ∈ rows)
    (hl : l.Pairwise (fun a b => Time.textLe b.CreatedAt a.CreatedAt))
    (hzone : ∀ u ∈ rows, ∀ v ∈ rows, u.CreatedAt.offset = v.CreatedAt.offset) :
    l.Pairwise (fun a b => b.CreatedAt.instant ≤ a.CreatedAt.instant) := by
  refine List.Pairwise.imp_of_mem ?_ hl
  intro a b ha hb hab
  exact textLe_same_offset _ _ (hzone b (hmem b hb) a (hmem a ha)) hab

/-- C15, as stated, fails: of two stored records the one created 40 minutes
later, after the zone offset went from +02:00 to +01:00, is listed second,
so `CreatedAt` increases along the list. -/
theorem list_not_in_creation_order :
    ¬ ∀ (d : Database) (l : List URL), ListURLs d ListFaults.calm = .ok l →
        l.Pairwise (fun a b => b.CreatedAt.instant ≤ a.CreatedAt.instant) := by
  intro h
  have h1 := h { urls := [summerRow, winterRow], seq := 2 } [summerRow, winterRow] rfl
  revert h1
  decide

/-- C15, amended: when every stored `clicks` value is a 64-bit integer and
the driver reports no failure, `ListURLs` returns a list that holds every
stored record exactly once (a permutation of the table), in non-increasing
order of the stored `created_at` texts; when all stored records carry the
same zone offset and have four-digit local years, this is non-increasing
order of `CreatedAt`. Whatever a successful `ListURLs` returns is in that
order and has no record that is not stored; on a table without rows the
result is the empty list and no error. -/
theorem list_urls_sorted_complete (d : Database) :
    ((∀ u ∈ d.urls, fitsInt64 u.Clicks = true) →
      ∃ l, ListURLs d ListFaults.calm = .ok l ∧ l.Perm d.urls ∧
        l.Pairwise (fun a b => Time.textLe b.CreatedAt a.CreatedAt) ∧
        ((∀ u ∈ d.urls, ∀ v ∈ d.urls, u.CreatedAt.offset = v.CreatedAt.offset) →
          (∀ u ∈ d.urls, u.CreatedAt.fourDigitYear) →
          l.Pairwise (fun a b => b.CreatedAt.instant ≤ a.CreatedAt.instant))) ∧
    (∀ f l, ListURLs d f = .ok l →
      l.Pairwise (fun a b => Time.textLe b.CreatedAt a.CreatedAt) ∧
      ((∀ u ∈ d.urls, ∀ v ∈ d.urls, u.CreatedAt.offset = v.CreatedAt.offset) →
        (∀ u ∈ d.urls, u.CreatedAt.fourDigitYear) →
        l.Pairwise (fun a b => b.CreatedAt.instant ≤ a.CreatedAt.instant)) ∧
      ∀ u ∈ l, u ∈ d.urls) ∧
    (d.urls = [] → ListURLs d ListFaults.calm = .ok []) := by
  refine ⟨fun _ => ⟨_, ListURLs_calm d, List.perm_insertionSort _ _, sorted_rows d.urls, ?_⟩,
    ?_, ?_⟩
  · intro hzone _
    exact sorted_rows_instant _ d.urls (fun u hu => (List.mem_insertionSort _).1 hu)
      (sorted_rows d.urls) hzone
  · intro f l h
    have hs : l.Pairwise (fun a b => Time.textLe b.CreatedAt a.CreatedAt) := by
      rw [ListURLs_ok d f l h]
      exact (sorted_rows d.urls).sublist (scanRows_sublist _ _ _)
    exact ⟨hs, fun hzone _ => sorted_rows_instant l d.urls (ListURLs_mem d f l h) hs hzone,
      ListURLs_mem d f l h⟩
  · intro h
    rw [ListURLs_calm, h]
    rfl

theorem list_urls_sorted_complete_witness :
    (∃ l, ListURLs { urls := [exampleRow, firstRow, mixedCaseRow], seq := 4 } ListFaults.calm =
        .ok l ∧ l.Perm [exampleRow, firstRow, mixedCaseRow] ∧
      l.Pairwise (fun a b => Time.textLe b.CreatedAt a.CreatedAt) ∧
      ((∀ u ∈ [exampleRow, firstRow, mixedCaseRow], ∀ v ∈ [exampleRow, firstRow, mixedCaseRow],
          u.CreatedAt.offset = v.CreatedAt.offset) →
        (∀ u ∈ [exampleRow, firstRow, mixedCaseRow], u.CreatedAt.fourDigitYear) →
        l.Pairwise (fun a b => b.CreatedAt.instant ≤ a.CreatedAt.instant))) ∧
    ListURLs Database.empty ListFaults.calm = .ok [] ∧
    ([firstRow, exampleRow, mixedCaseRow] : List URL).Pairwise
      (fun a b => b.CreatedAt.instant ≤ a.CreatedAt.instant) :=
  ⟨(list_urls_sorted_complete { urls := [exampleRow, firstRow, mixedCaseRow], seq := 4 }).1
      (by decide),
   (list_urls_sorted_complete Database.empty).2.2 rfl,
   ((list_urls_sorted_complete { urls := [exampleRow, firstRow, mixedCaseRow], seq := 4 }).2.1
      ListFaults.calm [firstRow, exampleRow, mixedCaseRow] rfl).2.1 (by decide)
      (by unfold Time.fourDigitYear; decide)⟩

/-! ## C16: the order of two new links -/

/-- C16, as stated, fails: (1) when the clock is set back between the two
calls the record made first carries the later `CreatedAt`, and `ListURLs`
returns `[A, B]`; (2) the same list results when the clock reading of the
second call is later but the zone offset has gone from +02:00 to +01:00 in
between, so that the text stored for `B` is the smaller one. -/
theorem list_order_not_call_order :
    (¬ ∀ (fuel1 fuel2 : Nat) (w1 w2 : World) (t1 t2 c1 c2 : String) (A B : URL)
        (d1 d2 : Database),
        ShortenURL fuel1 Database.empty w1 t1 c1 = some (.ok A, d1) →
        ShortenURL fuel2 d1 w2 t2 c2 = some (.ok B, d2) →
        ListURLs d2 ListFaults.calm = .ok [B, A]) ∧
    (¬ ∀ (fuel1 fuel2 : Nat) (w1 w2 : World) (t1 t2 c1 c2 : String) (A B : URL)
        (d1 d2 : Database),
        ShortenURL fuel1 Database.empty w1 t1 c1 = some (.ok A, d1) →
        ShortenURL fuel2 d1 w2 t2 c2 = some (.ok B, d2) →
        w1.now.instant < w2.now.instant →
        ListURLs d2 ListFaults.calm = .ok [B, A]) := by
  constructor
  · intro h
    have h1 := h 0 0 retryWorld quietWorld "a.example" "b.example" "first" "second"
      firstRow secondRow { urls := [firstRow], seq := 1 }
      { urls := [firstRow, secondRow], seq := 2 } rfl rfl
    have h2 : ListURLs { urls := [firstRow, secondRow], seq := 2 } ListFaults.calm =
        .ok [firstRow, secondRow] := rfl
    rw [h2] at h1
    have h3 := Except.ok.inj h1
    revert h3
    decide
  · intro h
    have h1 := h 0 0 summerWorld winterWorld "a.example" "b.example" "summer" "winter"
      summerRow winterRow { urls := [summerRow], seq := 1 }
      { urls := [summerRow, winterRow], seq := 2 } rfl rfl (by decide)
    have h2 : ListURLs { urls := [summerRow, winterRow], seq := 2 } ListFaults.calm =
        .ok [summerRow, winterRow] := rfl
    rw [h2] at h1
    have h3 := Except.ok.inj h1
    revert h3
    decide

/-- With equal clock readings the two rows tie under `ORDER BY created_at`;
the model keeps them in rowid order. -/
theorem list_order_equal_clock :
    ListURLs { urls := [testRow, { secondRow with CreatedAt := Time.utc 7 }], seq := 2 }
        ListFaults.calm = .ok [testRow, { secondRow with CreatedAt := Time.utc 7 }] := rfl

/-- C16, amended: starting from the empty table, after a successful
`ShortenURL` giving `A` and then a successful `ShortenURL` giving `B`, with
the clock reading of the second call later than that of the first, both in
the same zone offset and with four-digit local years, `ListURLs` returns
exactly `[B, A]`. -/
theorem list_after_two_shortens (fuel1 fuel2 : Nat) (w1 w2 : World) (t1 t2 c1 c2 : String)
    (A B : URL) (d1 d2 : Database)
    (h1 : ShortenURL fuel1 Database.empty w1 t1 c1 = some (.ok A, d1))
    (h2 : ShortenURL fuel2 d1 w2 t2 c2 = some (.ok B, d2))
    (hclock : w1.now.instant < w2.now.instant)
    (hzone : w1.now.offset = w2.now.offset)
    (_hyear : w1.now.fourDigitYear ∧ w2.now.fourDigitYear) :
    ListURLs d2 ListFaults.calm = .ok [B, A] := by
  obtain ⟨-, -, hu1⟩ := stored_first _ _ _ _ _ _ _ h1
  obtain ⟨-, -, hu2⟩ := stored_first _ _ _ _ _ _ _ h2
  obtain ⟨-, -, -, hA, -⟩ := shorten_get_back _ _ _ _ _ _ _ h1
  obtain ⟨-, -, -, hB, -⟩ := shorten_get_back _ _ _ _ _ _ _ h2
  have hnot : Time.textLe B.CreatedAt A.CreatedAt = false := by
    rw [hA, hB, Bool.eq_false_iff]
    intro hle
    have := textLe_same_offset _ _ hzone.symm hle
    omega
  rw [ListURLs_calm, hu2, hu1]
  simp [Database.empty, List.insertionSort, List.orderedInsert, hnot]

theorem list_after_two_shortens_witness :
    ListURLs { urls := [exampleRow, retryRow], seq := 2 } ListFaults.calm =
      .ok [retryRow, exampleRow] :=
  list_after_two_shortens 1 2 quietWorld retryWorld "example.com" "example.org" "" ""
    exampleRow retryRow { urls := [exampleRow], seq := 1 }
    { urls := [exampleRow, retryRow], seq := 2 } rfl rfl (by decide) rfl
    (by unfold Time.fourDigitYear; decide)

/-! ## C17: an empty target -/

/-- C17 at its failing input: `ShortenURL` called with the empty target
returns no error; it stores and returns a record whose target is the bare
scheme `https://`, with a generated code as well as with a custom one. -/
theorem shorten_empty_target_succeeds :
    ShortenURL 1 Database.empty quietWorld "" "" =
      some (.ok emptyTargetRow, { urls := [emptyTargetRow], seq := 1 }) ∧
    ShortenURL 0 Database.empty quietWorld "" "x" =
      some (.ok { emptyTargetRow with ShortCode := "x" },
            { urls := [{ emptyTargetRow with ShortCode := "x" }], seq := 1 }) :=
  ⟨rfl, rfl⟩

/-! ## C18: the error for a taken custom code -/

theorem uniqueLoop_error_shape (d : Database) (w : World) (fuel k : Nat) (sc : String)
    (err : GoError) (h : uniqueLoop d w fuel k sc = some (.error err)) :
    ∃ m e, err = .wrap m e := by
  induction fuel generalizing k sc with
  | zero => simp [uniqueLoop] at h
  | succ n ih =>
    unfold uniqueLoop at h
    cases hl : GetURLByShortCode d (w.lookupFault k) sc with
    | error e =>
      simp only [hl, Option.some.injEq, Except.error.injEq] at h
      exact ⟨_, _, h.symm⟩
    | ok o =>
      cases o with
      | none => simp [hl] at h
      | some u =>
        simp only [hl] at h
        cases hg : generateShortCode 6 (w.rand (k + 1)) with
        | error e =>
          simp only [hg, Option.some.injEq, Except.error.injEq] at h
          exact ⟨_, _, h.symm⟩
        | ok sc' =>
          simp only [hg] at h
          exact ih _ _ h

/-- Every error that `ShortenURL` returns is a value of `fmt.Errorf`; none of
the error structs of `model/errors.go` is ever built. -/
theorem ShortenURL_error_shape (fuel : Nat) (d d' : Database) (w : World) (t c : String)
    (err : GoError) (h : ShortenURL fuel d w t c = some (.error err, d')) :
    (∃ m, err = .errorf m) ∨ (∃ m e, err = .wrap m e) := by
  unfold ShortenURL at h
  cases hch : chooseCode fuel d w c with
  | none => simp [hch] at h
  | some cr =>
    cases cr with
    | error e =>
      simp only [hch, Option.some.injEq, Prod.mk.injEq, Except.error.injEq] at h
      obtain ⟨h1, -⟩ := h
      subst h1
      unfold chooseCode at hch
      by_cases hc : c = ""
      · simp only [hc, ne_eq, not_true_eq_false, if_false] at hch
        cases hg : generateShortCode 6 (w.rand 0) with
        | error e1 =>
          simp only [hg, Option.some.injEq, Except.error.injEq] at hch
          exact Or.inr ⟨_, _, hch.symm⟩
        | ok sc =>
          simp only [hg] at hch
          exact Or.inr (uniqueLoop_error_shape d w fuel 0 sc e hch)
      · simp only [ne_eq, hc, not_false_eq_true, if_true] at hch
        cases hl : GetURLByShortCode d (w.lookupFault 0) c with
        | error e1 =>
          simp only [hl, Option.some.injEq, Except.error.injEq] at hch
          exact Or.inr ⟨_, _, hch.symm⟩
        | ok o =>
          cases o with
          | none => simp [hl] at hch
          | some u =>
            simp only [hl, Option.some.injEq, Except.error.injEq] at hch
            exact Or.inl ⟨_, hch.symm⟩
    | ok code =>
      simp only [hch] at h
      generalize SaveURL d w.saveFault w.idFault _ = sv at h
      obtain ⟨res, d2⟩ := sv
      cases res with
      | error e =>
        simp only [Option.some.injEq, Prod.mk.injEq, Except.error.injEq] at h
        exact Or.inr ⟨_, _, h.1.symm⟩
      | ok r2 => simp at h

/-- C18 at its failing input: with `dup` already stored,
`ShortenURL "https://example.net" "dup"` returns the plain `fmt.Errorf` value
with the text of the conflict message, which is not the struct
`model.ErrCustomCodeAlreadyExists` with `Code = "dup"`. -/
theorem shorten_conflict_error_untyped :
    ShortenURL 0 { urls := [dupRow], seq := 1 } quietWorld "https://example.net" "dup" =
      some (.error (.errorf "custom code 'dup' is already in use"),
            { urls := [dupRow], seq := 1 }) ∧
    GoError.errorf "custom code 'dup' is already in use" ≠
      GoError.ErrCustomCodeAlreadyExists "dup" :=
  ⟨rfl, by decide⟩

/-! ## C19: a failed insert -/

theorem SaveURL_refused (d : Database) (ef idf : Option String) (url : URL)
    (h : ef ≠ none ∨ url.ShortCode ∈ d.codes) :
    ∃ err, SaveURL d ef idf url = (.error err, d) := by
  unfold SaveURL
  cases ef with
  | some m => exact ⟨_, rfl⟩
  | none =>
    have hc : d.urls.any (fun r => r.ShortCode == url.ShortCode) = true := by
      rw [any_code_iff]
      rcases h with h | h
      · exact absurd rfl h
      · exact h
    simp only [hc, if_true]
    exact ⟨_, rfl⟩

theorem SaveURL_error_state (d d' : Database) (ef : Option String) (url : URL) (e : GoError)
    (h : SaveURL d ef none url = (.error e, d')) : d' = d := by
  unfold SaveURL at h
  cases ef with
  | some m =>
    simp only [Prod.mk.injEq] at h
    exact h.2.symm
  | none =>
    by_cases hc : d.urls.any (fun r => r.ShortCode == url.ShortCode) = true
    · simp only [hc, if_true, Prod.mk.injEq] at h
      exact h.2.symm
    · simp [hc] at h

theorem ShortenURL_error_state (fuel : Nat) (d d' : Database) (w : World) (t c : String)
    (err : GoError) (hid : w.idFault = none)
    (h : ShortenURL fuel d w t c = some (.error err, d')) : d' = d := by
  unfold ShortenURL at h
  cases hch : chooseCode fuel d w c with
  | none => simp [hch] at h
  | some cr =>
    cases cr with
    | error e =>
      simp [hch] at h
      exact h.2.symm
    | ok code =>
      simp only [hch, hid] at h
      generalize hs : SaveURL d w.saveFault none _ = sv at h
      obtain ⟨res, d2⟩ := sv
      cases res with
      | error e =>
        simp only [Option.some.injEq, Prod.mk.injEq] at h
        rw [← h.2]
        exact SaveURL_error_state _ _ _ _ _ hs
      | ok r2 => simp at h

/-- With `LastInsertId` failing after the `INSERT` was carried out,
`ShortenURL` returns an error although the row is stored. -/
theorem shorten_lost_id_keeps_row :
    ShortenURL 1 Database.empty lostIdWorld "example.com" "" =
      some (.error (.wrap "failed to save URL: "
              (.wrap "failed to get last insert ID: " (.external "no insert id"))),
            { urls := [exampleRow], seq := 1 }) := rfl

/-- C19: an `INSERT` that fails (refused by the driver, or violating the
`UNIQUE` constraint) leaves the table as it was; when the driver refuses the
`INSERT` of `ShortenURL`, for any target and any code chosen, `ShortenURL`
returns an error wrapping the driver's error, no record, and the table
unchanged; and as long as `LastInsertId` does not fail, every call of
`ShortenURL` that returns an error leaves the table unchanged. -/
theorem failed_insert_leaves_store :
    (∀ (d : Database) (ef idf : Option String) (url : URL),
      (ef ≠ none ∨ url.ShortCode ∈ d.codes) → ∃ err, SaveURL d ef idf url = (.error err, d)) ∧
    (∀ (fuel : Nat) (d : Database) (w : World) (t c code m : String),
      chooseCode fuel d w c = some (.ok code) → w.saveFault = some m →
        ShortenURL fuel d w t c =
          some (.error (.wrap "failed to save URL: "
                  (.wrap "failed to save URL: " (.external m))), d)) ∧
    (∀ (fuel : Nat) (d d' : Database) (w : World) (t c : String) (err : GoError),
      w.idFault = none → ShortenURL fuel d w t c = some (.error err, d') → d' = d) := by
  refine ⟨SaveURL_refused, ?_, ?_⟩
  · intro fuel d w t c code m hch hs
    unfold ShortenURL
    simp only [hch, hs, SaveURL]
  · intro fuel d d' w t c err hid h
    exact ShortenURL_error_state fuel d d' w t c err hid h

theorem failed_insert_leaves_store_witness :
    (∃ err, SaveURL { urls := [dupRow], seq := 1 } none none dupRow =
      (.error err, { urls := [dupRow], seq := 1 })) ∧
    ShortenURL 1 { urls := [dupRow], seq := 1 } fullDiskWorld "example.com" "" =
      some (.error (.wrap "failed to save URL: "
              (.wrap "failed to save URL: " (.external "disk I/O error"))),
            { urls := [dupRow], seq := 1 }) ∧
    ({ urls := [dupRow], seq := 1 } : Database) = { urls := [dupRow], seq := 1 } :=
  ⟨failed_insert_leaves_store.1 { urls := [dupRow], seq := 1 } none none dupRow
      (Or.inr (by decide)),
   failed_insert_leaves_store.2.1 1 { urls := [dupRow], seq := 1 } fullDiskWorld
      "example.com" "" "aaaaaa" "disk I/O error" rfl rfl,
   failed_insert_leaves_store.2.2 0 { urls := [dupRow], seq := 1 }
      { urls := [dupRow], seq := 1 } quietWorld "other.org" "dup"
      (.errorf "custom code 'dup' is already in use") rfl rfl⟩

/-! ## C20: the click counter -/

theorem ShortenURL_state_clicks (fuel : Nat) (d d' : Database) (w : World) (t c : String)
    (res : Except GoError URL) (h : ShortenURL fuel d w t c = some (res, d')) :
    d' = d ∨ ∃ row : URL, row.ShortCode ∉ d.codes ∧ row.Clicks = 0 ∧
      d' = { urls := d.urls ++ [row], seq := nextRowid d } := by
  unfold ShortenURL at h
  cases hch : chooseCode fuel d w c with
  | none => simp [hch] at h
  | some cr =>
    cases cr with
    | error e =>
      simp [hch] at h
      exact Or.inl h.2.symm
    | ok code =>
      simp only [hch] at h
      generalize hu : NewURL code _ w.now = url at h
      have hcl : url.Clicks = 0 := by rw [← hu]; rfl
      have hst := SaveURL_state d w.saveFault w.idFault url
      generalize hs : SaveURL d w.saveFault w.idFault url = sv at h hst
      obtain ⟨r2, d2⟩ := sv
      have hd : d2 = d' := by
        cases r2 <;> simp at h <;> exact h.2
      subst hd
      rcases hst with h1 | ⟨h1, h2⟩
      · exact Or.inl h1
      · exact Or.inr ⟨{ url with ID := nextRowid d }, h1, hcl, h2⟩

/-- Under pairwise different codes, a row found under the same code before
and after one call is the same row, or that row with one more click. -/
theorem apply_row (d d' : Database) (op : Op) (hn : d.codes.Nodup)
    (h : op.apply d = some d') (u u' : URL) (hu : u ∈ d.urls) (hu' : u' ∈ d'.urls)
    (hc : u'.ShortCode = u.ShortCode) :
    u' = u ∨ u' = { u with Clicks := u.Clicks + 1 } := by
  have hsame : ∀ v ∈ d.urls, v.ShortCode = u.ShortCode → v = u :=
    fun v hv e => List.inj_on_of_nodup_map hn hv hu e
  cases op with
  | shorten fuel w t cc =>
    cases h1 : ShortenURL fuel d w t cc with
    | none => simp [Op.apply, h1] at h
    | some p =>
    obtain ⟨res, d2⟩ := p
    simp only [Op.apply, h1, Option.map_some', Option.some.injEq] at h
    subst h
    rcases ShortenURL_state fuel d d2 w t cc res h1 with h3 | ⟨row, h3, h4⟩
    · rw [h3] at hu'
      exact Or.inl (hsame u' hu' hc)
    · rw [h4] at hu'
      simp only [List.mem_append, List.mem_singleton] at hu'
      rcases hu' with hu' | hu'
      · exact Or.inl (hsame u' hu' hc)
      · exfalso
        apply h3
        rw [← hu', hc]
        exact List.mem_map_of_mem URL.ShortCode hu
  | get f cc =>
    simp only [Op.apply, Option.some.injEq] at h
    subst h
    exact Or.inl (hsame u' hu' hc)
  | click f cc =>
    simp only [Op.apply, Option.some.injEq] at h
    subst h
    cases f with
    | some m => exact Or.inl (hsame u' hu' hc)
    | none =>
      simp only [RecordClick, IncrementClicks, List.mem_map] at hu'
      obtain ⟨v, hv, hv'⟩ := hu'
      by_cases hvc : v.ShortCode = cc
      · have hb : (v.ShortCode == cc) = true := by simp [hvc]
        simp only [hb, if_true] at hv'
        have : v = u := hsame v hv (by rw [← hc, ← hv'])
        subst this
        rcases sqlPlusOne_cases v.Clicks with e | e
        · right
          rw [← hv', e]
        · left
          rw [← hv', e]
      · have hb : (v.ShortCode == cc) = false := by simp [hvc]
        simp only [hb] at hv'
        left
        rw [← hv'] at hc ⊢
        exact hsame v hv hc
  | list f =>
    simp only [Op.apply, Option.some.injEq] at h
    subst h
    exact Or.inl (hsame u' hu' hc)
  | delete f cc =>
    simp only [Op.apply, Option.some.injEq] at h
    subst h
    cases f with
    | some m => exact Or.inl (hsame u' hu' hc)
    | none =>
      simp only [DeleteURL, Database.DeleteURL, List.mem_filter] at hu'
      exact Or.inl (hsame u' hu'.1 hc)

theorem apply_nonneg (d d' : Database) (op : Op) (h : op.apply d = some d')
    (h0 : ∀ u ∈ d.urls, 0 ≤ u.Clicks) : ∀ u ∈ d'.urls, 0 ≤ u.Clicks := by
  cases op with
  | shorten fuel w t cc =>
    cases h1 : ShortenURL fuel d w t cc with
    | none => simp [Op.apply, h1] at h
    | some p =>
    obtain ⟨res, d2⟩ := p
    simp only [Op.apply, h1, Option.map_some', Option.some.injEq] at h
    subst h
    rcases ShortenURL_state_clicks fuel d d2 w t cc res h1 with h3 | ⟨row, -, h3, h4⟩
    · rw [h3]; exact h0
    · intro u hu
      rw [h4] at hu
      simp only [List.mem_append, List.mem_singleton] at hu
      rcases hu with hu | hu
      · exact h0 u hu
      · rw [hu, h3]
  | get f cc =>
    simp only [Op.apply, Option.some.injEq] at h
    subst h; exact h0
  | click f cc =>
    simp only [Op.apply, Option.some.injEq] at h
    subst h
    cases f with
    | some m => exact h0
    | none =>
      intro u hu
      simp only [RecordClick, IncrementClicks, List.mem_map] at hu
      obtain ⟨v, hv, hv'⟩ := hu
      have := h0 v hv
      by_cases hvc : (v.ShortCode == cc) = true
      · simp only [hvc, if_true] at hv'
        rw [← hv']
        show 0 ≤ sqlPlusOne v.Clicks
        rcases sqlPlusOne_cases v.Clicks with e | e <;> rw [e] <;> omega
      · simp only [hvc] at hv'
        rw [← hv']
        exact this
  | list f =>
    simp only [Op.apply, Option.some.injEq] at h
    subst h; exact h0
  | delete f cc =>
    simp only [Op.apply, Option.some.injEq] at h
    subst h
    cases f with
    | some m => exact h0
    | none =>
      intro u hu
      simp only [DeleteURL, Database.DeleteURL, List.mem_filter] at hu
      exact h0 u hu.1

theorem runOps_nonneg (ops : List Op) (d d' : Database) (h : runOps d ops = some d')
    (h0 : ∀ u ∈ d.urls, 0 ≤ u.Clicks) : ∀ u ∈ d'.urls, 0 ≤ u.Clicks := by
  induction ops generalizing d with
  | nil =>
    simp only [runOps, Option.some.injEq] at h
    subst h; exact h0
  | cons op ops ih =>
    simp only [runOps, Option.bind_eq_some] at h
    obtain ⟨d1, h1, h2⟩ := h
    exact ih d1 h2 (apply_nonneg d d1 op h1 h0)

/-- C20: the record that `ShortenURL` creates has `Clicks = 0`; in every
table reached from the empty one by calls of the service no `Clicks` is
negative; and for every call of the service on a table with pairwise
different codes, a link stored before and after the call has afterwards a
`Clicks` value at least as large as before. -/
theorem clicks_never_decrease :
    (∀ (fuel : Nat) (d d' : Database) (w : World) (t c : String) (r : URL),
      ShortenURL fuel d w t c = some (.ok r, d') → r.Clicks = 0) ∧
    (∀ (ops : List Op) (d : Database), runOps Database.empty ops = some d →
      ∀ u ∈ d.urls, 0 ≤ u.Clicks) ∧
    (∀ (d d' : Database) (op : Op), d.codes.Nodup → op.apply d = some d' →
      ∀ u ∈ d.urls, ∀ u' ∈ d'.urls, u'.ShortCode = u.ShortCode → u.Clicks ≤ u'.Clicks) := by
  refine ⟨?_, ?_, ?_⟩
  · intro fuel d d' w t c r h
    exact (shorten_get_back fuel d d' w t c r h).1
  · intro ops d h
    exact runOps_nonneg ops Database.empty d h (by simp [Database.empty])
  · intro d d' op hn h u hu u' hu' hc
    rcases apply_row d d' op hn h u u' hu hu' hc with e | e
    · rw [e]
    · rw [e]
      show u.Clicks ≤ u.Clicks + 1
      omega

theorem clicks_never_decrease_witness :
    testRow.Clicks = 0 ∧
    (∀ u ∈ [{ testRow with Clicks := 1 }], 0 ≤ u.Clicks) ∧
    testRow.Clicks ≤ ({ testRow with Clicks := 1 } : URL).Clicks :=
  ⟨clicks_never_decrease.1 0 Database.empty { urls := [testRow], seq := 1 } quietWorld
      "https://example.com" "test" testRow rfl,
   clicks_never_decrease.2.1 [Op.shorten 0 quietWorld "https://example.com" "test",
      Op.click none "test"] { urls := [{ testRow with Clicks := 1 }], seq := 1 } rfl,
   clicks_never_decrease.2.2 { urls := [testRow], seq := 1 }
      { urls := [{ testRow with Clicks := 1 }], seq := 1 } (Op.click none "test") (by decide) rfl
      testRow (by decide) { testRow with Clicks := 1 } (by decide) rfl⟩

/-! ## C21: what a call may change in a stored record -/

theorem forall₂_self_rows (rows : List URL) :
    List.Forall₂ (fun u u' : URL => u' = u ∨ u' = { u with Clicks := u.Clicks + 1 })
      rows rows :=
  List.forall₂_same.2 (fun _ _ => Or.inl rfl)

/-- Every call leaves behind the rows it found, in their order, each one
unchanged or with one more click, except for rows it deleted, followed by at
most one new row under a code that was not stored. -/
theorem apply_frame (d d' : Database) (op : Op) (h : op.apply d = some d') :
    ∃ kept pre new : List URL, kept.Sublist d.urls ∧
      List.Forall₂ (fun u u' : URL => u' = u ∨ u' = { u with Clicks := u.Clicks + 1 })
        kept pre ∧
      new.length ≤ 1 ∧ (∀ r ∈ new, r.ShortCode ∉ d.codes) ∧ d'.urls = pre ++ new := by
  cases op with
  | shorten fuel w t cc =>
    cases h1 : ShortenURL fuel d w t cc with
    | none => simp [Op.apply, h1] at h
    | some p =>
    obtain ⟨res, d2⟩ := p
    simp only [Op.apply, h1, Option.map_some', Option.some.injEq] at h
    subst h
    rcases ShortenURL_state fuel d d2 w t cc res h1 with h3 | ⟨row, h3, h4⟩
    · exact ⟨d.urls, d.urls, [], List.Sublist.refl _, forall₂_self_rows _, by simp, by simp,
        by rw [h3]; simp⟩
    · refine ⟨d.urls, d.urls, [row], List.Sublist.refl _, forall₂_self_rows _, by simp, ?_,
        by rw [h4]⟩
      intro r hr
      simp only [List.mem_singleton] at hr
      rw [hr]
      exact h3
  | get f cc =>
    simp only [Op.apply, Option.some.injEq] at h
    subst h
    exact ⟨d.urls, d.urls, [], List.Sublist.refl _, forall₂_self_rows _, by simp, by simp,
      by simp⟩
  | click f cc =>
    simp only [Op.apply, Option.some.injEq] at h
    subst h
    cases f with
    | some m =>
      exact ⟨d.urls, d.urls, [], List.Sublist.refl _, forall₂_self_rows _, by simp, by simp,
        by simp [RecordClick, IncrementClicks]⟩
    | none =>
      refine ⟨d.urls, _, [], List.Sublist.refl _, ?_, by simp, by simp,
        by simp only [RecordClick, IncrementClicks, List.append_nil]; rfl⟩
      rw [List.forall₂_map_right_iff, List.forall₂_same]
      intro u _
      by_cases hu : (u.ShortCode == cc) = true
      · rcases sqlPlusOne_cases u.Clicks with e | e
        · right; simp [hu, e]
        · left; simp [hu, e]
      · left; simp [hu]
  | list f =>
    simp only [Op.apply, Option.some.injEq] at h
    subst h
    exact ⟨d.urls, d.urls, [], List.Sublist.refl _, forall₂_self_rows _, by simp, by simp,
      by simp⟩
  | delete f cc =>
    simp only [Op.apply, Option.some.injEq] at h
    subst h
    cases f with
    | some m =>
      exact ⟨d.urls, d.urls, [], List.Sublist.refl _, forall₂_self_rows _, by simp, by simp,
        by simp [DeleteURL, Database.DeleteURL]⟩
    | none =>
      exact ⟨_, _, [], List.filter_sublist d.urls, forall₂_self_rows _, by simp, by simp,
        by simp only [DeleteURL, Database.DeleteURL, List.append_nil]; rfl⟩

theorem click_rows (d : Database) (f : Option String) (c : String) :
    List.Forall₂ (fun u u' : URL => u'.ID = u.ID ∧ u'.ShortCode = u.ShortCode ∧
        u'.LongURL = u.LongURL ∧ u'.CreatedAt = u.CreatedAt ∧ (u.ShortCode ≠ c → u' = u))
      d.urls (RecordClick d f c).2.urls := by
  cases f with
  | some m =>
    simp only [RecordClick, IncrementClicks]
    exact List.forall₂_same.2 (fun _ _ => ⟨rfl, rfl, rfl, rfl, fun _ => rfl⟩)
  | none =>
    simp only [RecordClick, IncrementClicks]
    rw [List.forall₂_map_right_iff, List.forall₂_same]
    intro u _
    by_cases hu : u.ShortCode = c
    · simp [hu]
    · simp [hu]

/-- C21: for every call of the service, (1) the table afterwards consists of
rows found before, each unchanged or changed in `Clicks` only (one more
click), and at most one new row; (2) in a table with pairwise different codes
a link stored before and after the call keeps its `ID`, `LongURL` and
`CreatedAt` (and its `ShortCode`, by which it is found); (3) `RecordClick c`
keeps every row in place with the same `ID`, `ShortCode`, `LongURL` and
`CreatedAt`, leaves rows with another code unchanged, and keeps the rowid
counter; (4) a successful `ShortenURL` only appends the new record. -/
theorem only_clicks_change :
    (∀ (d d' : Database) (op : Op), op.apply d = some d' →
      ∃ kept pre new : List URL, kept.Sublist d.urls ∧
        List.Forall₂ (fun u u' : URL => u' = u ∨ u' = { u with Clicks := u.Clicks + 1 })
          kept pre ∧
        new.length ≤ 1 ∧ (∀ r ∈ new, r.ShortCode ∉ d.codes) ∧ d'.urls = pre ++ new) ∧
    (∀ (d d' : Database) (op : Op), d.codes.Nodup → op.apply d = some d' →
      ∀ u ∈ d.urls, ∀ u' ∈ d'.urls, u'.ShortCode = u.ShortCode →
        u'.ID = u.ID ∧ u'.LongURL = u.LongURL ∧ u'.CreatedAt = u.CreatedAt) ∧
    (∀ (d : Database) (f : Option String) (c : String),
      List.Forall₂ (fun u u' : URL => u'.ID = u.ID ∧ u'.ShortCode = u.ShortCode ∧
          u'.LongURL = u.LongURL ∧ u'.CreatedAt = u.CreatedAt ∧ (u.ShortCode ≠ c → u' = u))
        d.urls (RecordClick d f c).2.urls ∧
      (RecordClick d f c).2.seq = d.seq) ∧
    (∀ (fuel : Nat) (d d' : Database) (w : World) (t c : String) (r : URL),
      ShortenURL fuel d w t c = some (.ok r, d') → d'.urls = d.urls ++ [r]) := by
  refine ⟨apply_frame, ?_, ?_, ?_⟩
  · intro d d' op hn h u hu u' hu' hc
    rcases apply_row d d' op hn h u u' hu hu' hc with e | e <;> rw [e] <;> exact ⟨rfl, rfl, rfl⟩
  · intro d f c
    refine ⟨click_rows d f c, ?_⟩
    cases f <;> rfl
  · intro fuel d d' w t c r h
    exact (stored_first fuel d d' w t c r h).2.2

theorem only_clicks_change_witness :
    (({ testRow with Clicks := 1 } : URL).ID = testRow.ID ∧
      ({ testRow with Clicks := 1 } : URL).LongURL = testRow.LongURL ∧
      ({ testRow with Clicks := 1 } : URL).CreatedAt = testRow.CreatedAt) ∧
    [exampleRow, retryRow] = [exampleRow] ++ [retryRow] :=
  ⟨only_clicks_change.2.1 { urls := [testRow], seq := 1 }
      { urls := [{ testRow with Clicks := 1 }], seq := 1 } (Op.click none "test") (by decide) rfl
      testRow (by decide) { testRow with Clicks := 1 } (by decide) rfl,
   only_clicks_change.2.2.2 2 { urls := [exampleRow], seq := 1 }
      { urls := [exampleRow, retryRow], seq := 2 } retryWorld "example.org" "" retryRow rfl⟩

/-! ## C22: failures of the store -/

theorem GetURL_error (d : Database) (f : Option String) (c : String) (e : GoError)
    (h : GetURLByShortCode d f c = .error e) :
    GetURL d f c = .error (.wrap "failed to get URL: " e) := by
  unfold GetURL
  rw [h]

theorem uniqueLoop_fault (d : Database) (w : World) (cand : Nat → String) (n : Nat)
    (e : GoError)
    (hrand : ∀ k, generateShortCode 6 (w.rand k) = .ok (cand k))
    (hbefore : ∀ k < n, w.lookupFault k = none ∧ cand k ∈ d.codes)
    (hfail : GetURLByShortCode d (w.lookupFault n) (cand n) = .error e)
    (fuel k : Nat) (hk : k ≤ n) (hfuel : n - k < fuel) :
    uniqueLoop d w fuel k (cand k) =
      some (.error (.wrap "error checking short code: " e)) := by
  induction fuel generalizing k with
  | zero => omega
  | succ m ih =>
    unfold uniqueLoop
    by_cases hkn : k = n
    · subst hkn
      rw [hfail]
    · have hlt : k < n := by omega
      obtain ⟨h1, h2⟩ := hbefore k hlt
      obtain ⟨u, hu⟩ := lookup_of_mem d (cand k) h2
      rw [h1, hu]
      simp only [hrand (k + 1)]
      exact ih (k + 1) (by omega) (by omega)

theorem ShortenURL_choose_error (fuel : Nat) (d : Database) (w : World) (t c : String)
    (err : GoError) (h : chooseCode fuel d w c = some (.error err)) :
    ShortenURL fuel d w t c = some (.error err, d) := by
  unfold ShortenURL
  simp only [h]

/-- C22, as stated, fails: (1) the error with which `GetURLByShortCode` fails
is not what `GetURL` returns; (2) a `Scan` that fails on a fetched row does
not make `ListURLs` fail. -/
theorem storage_error_wrapped_or_skipped :
    (¬ ∀ (d : Database) (f : Option String) (c : String) (e : GoError),
        GetURLByShortCode d f c = .error e → GetURL d f c = .error e) ∧
    (¬ ∀ (d : Database) (f : ListFaults),
        (∃ k, k < d.urls.length ∧ f.scan k = true) → ∃ e, ListURLs d f = .error e) := by
  constructor
  · intro h
    have h1 := h { urls := [testRow], seq := 1 } (some "disk I/O error") "test"
      (.wrap "failed to get URL: " (.external "disk I/O error")) rfl
    have h2 : GetURL { urls := [testRow], seq := 1 } (some "disk I/O error") "test" =
        .error (.wrap "failed to get URL: "
          (.wrap "failed to get URL: " (.external "disk I/O error"))) := rfl
    rw [h2] at h1
    have h3 := Except.error.inj h1
    revert h3
    decide
  · intro h
    obtain ⟨e, he⟩ := h { urls := [testRow], seq := 1 } ListFaults.badRows ⟨0, by decide, rfl⟩
    have h2 : ListURLs { urls := [testRow], seq := 1 } ListFaults.badRows = .ok [] := rfl
    rw [h2] at he
    cases he

/-- C22, amended: when the store operation behind a service call returns an
error `e`, the service call returns an error too: `RecordClick`, `ListURLs`
and `DeleteURL` return what the store operation returns, `GetURL` and
`ShortenURL` return `e` wrapped under a message; the store operations return
a driver failure of their statement wrapped under a message. A row of
`ListURLs` whose `Scan` fails is skipped, and the call succeeds with the
rows that are left. -/
theorem storage_errors_surface :
    (∀ (d : Database) (f : Option String) (c : String) (e : GoError),
      GetURLByShortCode d f c = .error e →
        GetURL d f c = .error (.wrap "failed to get URL: " e)) ∧
    (∀ (fuel : Nat) (d : Database) (w : World) (t c : String) (e : GoError), c ≠ "" →
      GetURLByShortCode d (w.lookupFault 0) c = .error e →
        ShortenURL fuel d w t c =
          some (.error (.wrap "error checking custom code: " e), d)) ∧
    (∀ (fuel n : Nat) (d : Database) (w : World) (t : String) (cand : Nat → String)
      (e : GoError), (∀ k, generateShortCode 6 (w.rand k) = .ok (cand k)) →
      (∀ k < n, w.lookupFault k = none ∧ cand k ∈ d.codes) →
      GetURLByShortCode d (w.lookupFault n) (cand n) = .error e → n < fuel →
        ShortenURL fuel d w t "" =
          some (.error (.wrap "error checking short code: " e), d)) ∧
    (∀ (fuel : Nat) (d d1 : Database) (w : World) (t c code : String) (e : GoError),
      chooseCode fuel d w c = some (.ok code) →
      SaveURL d w.saveFault w.idFault (NewURL code
        (if (!HasPrefix t "http://" && !HasPrefix t "https://") = true then "https://" ++ t
         else t) w.now) = (.error e, d1) →
        ShortenURL fuel d w t c = some (.error (.wrap "failed to save URL: " e), d1)) ∧
    (∀ (d : Database) (f : Option String) (c : String),
      RecordClick d f c = IncrementClicks d f c ∧ DeleteURL d f c = d.DeleteURL f c) ∧
    (∀ (d : Database) (f : ListFaults), ListURLs d f = d.ListURLs f) ∧
    (∀ (d : Database) (m c : String),
      GetURLByShortCode d (some m) c = .error (.wrap "failed to get URL: " (.external m)) ∧
      IncrementClicks d (some m) c =
        (some (.wrap "failed to increment clicks: " (.external m)), d) ∧
      d.DeleteURL (some m) c = (some (.wrap "failed to delete URL: " (.external m)), d)) ∧
    (∀ (d : Database) (f : ListFaults) (m : String),
      (f.query = some m → ListURLs d f = .error (.wrap "failed to list URLs: " (.external m))) ∧
      (f.query = none → f.iter = some m →
        ListURLs d f = .error (.wrap "error iterating URL rows: " (.external m)))) ∧
    (∀ (d : Database) (f : ListFaults), f.query = none → f.iter = none →
      ListURLs d f = .ok (scanRows f.scan 0
        (d.urls.insertionSort (fun a b => Time.textLe b.CreatedAt a.CreatedAt)))) := by
  refine ⟨GetURL_error, ?_, ?_, ?_, fun _ _ _ => ⟨rfl, rfl⟩, fun _ _ => rfl,
    fun _ _ _ => ⟨rfl, rfl, rfl⟩, ?_, ?_⟩
  · intro fuel d w t c e hc h
    apply ShortenURL_choose_error
    unfold chooseCode
    simp only [ne_eq, hc, not_false_eq_true, if_true, h]
  · intro fuel n d w t cand e hrand hbefore hfail hfuel
    apply ShortenURL_choose_error
    unfold chooseCode
    simp only [ne_eq, not_true_eq_false, if_false, hrand 0]
    exact uniqueLoop_fault d w cand n e hrand hbefore hfail fuel 0 (by omega) (by omega)
  · intro fuel d d1 w t c code e hch hs
    unfold ShortenURL
    simp only [hch, hs]
  · intro d f m
    constructor
    · intro hq
      simp [ListURLs, Database.ListURLs, hq]
    · intro hq hi
      simp [ListURLs, Database.ListURLs, hq, hi]
  · intro d f hq hi
    simp [ListURLs, Database.ListURLs, hq, hi]

theorem storage_errors_surface_witness :
    GetURL { urls := [testRow], seq := 1 } (some "disk I/O error") "test" =
        .error (.wrap "failed to get URL: "
          (.wrap "failed to get URL: " (.external "disk I/O error"))) ∧
    ShortenURL 1 { urls := [dupRow], seq := 1 } fullDiskWorld "example.com" "" =
        some (.error (.wrap "failed to save URL: "
          (.wrap "failed to save URL: " (.external "disk I/O error"))),
          { urls := [dupRow], seq := 1 }) ∧
    ListURLs { urls := [testRow], seq := 1 } ListFaults.badRows = .ok [] :=
  ⟨storage_errors_surface.1 { urls := [testRow], seq := 1 } (some "disk I/O error") "test"
      (.wrap "failed to get URL: " (.external "disk I/O error")) rfl,
   storage_errors_surface.2.2.2.1 1 { urls := [dupRow], seq := 1 } { urls := [dupRow], seq := 1 }
      fullDiskWorld "example.com" "" "aaaaaa"
      (.wrap "failed to save URL: " (.external "disk I/O error")) rfl rfl,
   storage_errors_surface.2.2.2.2.2.2.2.2 { urls := [testRow], seq := 1 } ListFaults.badRows
      rfl rfl⟩

/-! ## C23: the redirect handler -/

theorem hexEscape_ascii (s : String) (h : ∀ ch ∈ s.data, ch.toNat < 128) :
    hexEscapeNonASCII s = s := by
  unfold hexEscapeNonASCII
  have hl : ∀ l : List Char, (∀ ch ∈ l, ch.toNat < 128) →
      (l.flatMap fun c =>
        if c.toNat < 128 then [c]
        else (utf8Bytes c).flatMap fun b => ['%', hexDigit (b / 16), hexDigit (b % 16)]) = l := by
    intro l
    induction l with
    | nil => intro _; rfl
    | cons c cs ih =>
      intro hcs
      have hc : c.toNat < 128 := hcs c (List.mem_cons_self _ _)
      simp only [List.flatMap_cons, hc, if_true, List.singleton_append]
      rw [ih (fun ch hch => hcs ch (List.mem_cons_of_mem _ hch))]
  rw [hl s.data h]

/-- `ShortenURL` accepts a target with a character outside ASCII and stores it
as given. -/
theorem shorten_accepts_non_ascii :
    ShortenURL 0 Database.empty quietWorld "https://example.com/é" "cafe" =
      some (.ok accentRow, { urls := [accentRow], seq := 1 }) := rfl

/-- C23, as stated, fails: (1) for the code `favicon.ico`, stored as a custom
code, `redirectHandler` serves the file `./static/favicon.ico` instead of
redirecting to the record's target; (2) for a record whose target has a byte
outside ASCII the `Location` header carries the percent-escaped text, not
`u.LongURL`. -/
theorem redirect_handler_favicon_not_redirected :
    (¬ ∀ (d : Database) (f : Option String) (c : String) (u : URL),
        GetURL d f c = .ok (some u) →
          (redirectHandler d f c).response.statusCode = some 302 ∧
          (redirectHandler d f c).response.location = some u.LongURL) ∧
    (¬ ∀ (d : Database) (f : Option String) (c : String) (u : URL),
        c ≠ "favicon.ico" → GetURL d f c = .ok (some u) →
          (redirectHandler d f c).response.location = some u.LongURL) := by
  constructor
  · intro h
    have h1 := (h { urls := [faviconRow], seq := 1 } none "favicon.ico" faviconRow rfl).1
    revert h1
    decide
  · intro h
    have h1 := h { urls := [accentRow], seq := 1 } none "cafe" accentRow (by decide) rfl
    have h2 : (redirectHandler { urls := [accentRow], seq := 1 } none "cafe").response.location =
        some "https://example.com/%c3%a9" := by decide
    rw [h2] at h1
    revert h1
    decide

/-- C23, amended: for a code `c` other than `favicon.ico`, `redirectHandler`
answers a lookup that finds the record `u` with `http.Redirect` to
`u.LongURL` and status 302 (and starts `RecordClick c`); when `u.LongURL`
starts with `http://` or `https://`, the `Location` header is `u.LongURL`
with every byte outside ASCII percent-escaped, which is `u.LongURL` itself
when it is plain ASCII. A lookup that finds nothing is answered with status
404 and a failed lookup with status 500; for the code `favicon.ico` the
handler serves `./static/favicon.ico` without any lookup. -/
theorem redirect_handler_response (d : Database) (f : Option String) (c : String)
    (hc : c ≠ "favicon.ico") :
    (∀ u, GetURL d f c = .ok (some u) →
      redirectHandler d f c = { response := .redirect u.LongURL 302, click := some c } ∧
      (redirectHandler d f c).response.statusCode = some 302 ∧
      ((HasPrefix u.LongURL "http://" = true ∨ HasPrefix u.LongURL "https://" = true) →
        (redirectHandler d f c).response.location = some (hexEscapeNonASCII u.LongURL) ∧
        ((∀ ch ∈ u.LongURL.data, ch.toNat < 128) →
          (redirectHandler d f c).response.location = some u.LongURL))) ∧
    (GetURL d f c = .ok none →
      redirectHandler d f c = { response := .error "URL not found" 404, click := none } ∧
      (redirectHandler d f c).response.statusCode = some 404) ∧
    (∀ e, GetURL d f c = .error e →
      redirectHandler d f c =
        { response := .error ("Failed to retrieve URL: " ++ e.Error) 500, click := none } ∧
      (redirectHandler d f c).response.statusCode = some 500) ∧
    (∀ (d0 : Database) (f0 : Option String), redirectHandler d0 f0 "favicon.ico" =
      { response := .serveFile "./static/favicon.ico", click := none }) := by
  refine ⟨?_, ?_, ?_, fun _ _ => rfl⟩
  · intro u h
    have : redirectHandler d f c = { response := .redirect u.LongURL 302, click := some c } := by
      simp only [redirectHandler, hc, if_false, h]
    rw [this]
    refine ⟨rfl, rfl, ?_⟩
    intro hp
    have hl : (Response.redirect u.LongURL 302).location =
        some (hexEscapeNonASCII u.LongURL) := by
      rcases hp with hp | hp <;> simp [Response.location, hp]
    refine ⟨hl, ?_⟩
    intro hascii
    show (Response.redirect u.LongURL 302).location = some u.LongURL
    rw [hl, hexEscape_ascii _ hascii]
  · intro h
    have : redirectHandler d f c = { response := .error "URL not found" 404, click := none } := by
      simp only [redirectHandler, hc, if_false, h]
    rw [this]
    exact ⟨rfl, rfl⟩
  · intro e h
    have : redirectHandler d f c =
        { response := .error ("Failed to retrieve URL: " ++ e.Error) 500, click := none } := by
      simp only [redirectHandler, hc, if_false, h]
    rw [this]
    exact ⟨rfl, rfl⟩

theorem redirect_handler_response_witness :
    (redirectHandler { urls := [faviconRow, testRow], seq := 2 } none "test" =
        { response := .redirect testRow.LongURL 302, click := some "test" } ∧
      (redirectHandler { urls := [faviconRow, testRow], seq := 2 } none "test").response.statusCode
        = some 302 ∧
      (redirectHandler { urls := [faviconRow, testRow], seq := 2 } none "test").response.location
        = some testRow.LongURL) ∧
    (redirectHandler { urls := [faviconRow, testRow], seq := 2 } none "Test" =
        { response := .error "URL not found" 404, click := none } ∧
      (redirectHandler { urls := [faviconRow, testRow], seq := 2 } none "Test").response.statusCode
        = some 404) :=
  ⟨have h := (redirect_handler_response { urls := [faviconRow, testRow], seq := 2 } none "test"
      (by decide)).1 testRow rfl
   ⟨h.1, h.2.1, (h.2.2 (Or.inr (by decide))).2 (by decide)⟩,
   (redirect_handler_response { urls := [faviconRow, testRow], seq := 2 } none "Test"
      (by decide)).2.1 rfl⟩

end UrlShortener
